import Mathlib

/-!
# Quantized GEMM on the GPU target: shape resolution and device dispatch

A shallow embedding of `src/targets/gpu/quant_gemm.cpp`
(`miopen_quant_gemm::compute_shape` and `miopen_quant_gemm::compute`) and of
`compile_check` of `test/gpu/miopen.cpp`.

* `std::vector` is a `List`; `at` raises `out_of_range`, while `operator[]`,
  `back` and `pop_back` outside their domain are undefined behaviour and are
  reported as `undefined`. A failed `assert` is reported as `assertion`.
* `std::size_t` subtraction wraps around below zero (`size_sub`); `int8_t` and
  the conversion to the element type of the output wrap to their width
  (`wrap_signed`).
* `rocblas_int` is the 32-bit signed integer of the vendor library: the
  conversions of `std::size_t` values to it and the products computed in it
  wrap (`to_rocblas_int`, `int_mul`); a `std::size_t` product wraps at 2^64.
* The reference GEMM reads its operands and accumulates in the data types of
  its tags, and has no result when its output buffer is one of its matrix
  operands.
* Device work is not executed but recorded: `compute` returns the argument it
  returns in C++ together with the device calls it enqueued, in order.
  `run` gives these calls their reference meaning on a `memory`.
* The strided-batched GEMM is one plain GEMM per batch index, all reading the
  memory as it was before the call.
* Declarations of the repository that are used here but are not part of the
  sources at hand (`shape`, `check_shapes`, `op::quant_dot`, the pack kernels,
  `program`) are modelled from the specification and marked as such.
-/

namespace migraphx

/-- Ways in which the embedded code stops without a value. -/
inductive error where
  | out_of_range
  | undefined
  | check_shapes
  | op_error
  | assertion
deriving DecidableEq, Repr

/-- Modelled from the spec: the element types of `shape::type_t` (declared in
`shape.hpp`, which is not part of the sources) that the spec names, the 8-bit
and the 32-bit integer. -/
inductive type_t where
  | int8_type
  | int32_type
deriving DecidableEq, Repr

/-- A tensor descriptor: element type, lengths and strides (in elements). -/
structure shape where
  type : type_t
  lens : List Nat
  strides : List Nat
deriving DecidableEq, Repr

/-- Modelled from the spec: `shape::transposed()` (declared in `shape.hpp`).
The last two axes are stored swapped with respect to the row-major layout: the
stride of the second-to-last axis is smaller than the stride of the last. -/
def shape.transposed (s : shape) : Bool :=
  match s.strides.reverse with
  | s1 :: s0 :: _ => decide (s0 < s1)
  | _ => false

/-- Modelled from the spec: `shape::broadcasted()` (declared in `shape.hpp`).
Some stride is zero for a dimension whose length exceeds one. -/
def shape.broadcasted (s : shape) : Bool :=
  (s.lens.zip s.strides).any (fun p => decide (p.2 = 0 ∧ 1 < p.1))

/-- Row-major strides of a list of lengths. -/
def calculate_strides : List Nat → List Nat
  | [] => []
  | _ :: ls => ls.prod :: calculate_strides ls

/-- The standard (packed, row-major) shape of the given lengths. -/
def shape.standard_of (t : type_t) (lens : List Nat) : shape :=
  { type := t, lens := lens, strides := calculate_strides lens }

/-- Offset of a multi-index in the buffer of a shape: the sum of index times
stride. -/
def shape.index (s : shape) (idx : List Nat) : Nat :=
  ((idx.zip s.strides).map (fun p => p.1 * p.2)).sum

/-- A shape of rank `r`: `r` lengths, and one stride per length. -/
def shape.has_rank (s : shape) (r : Nat) : Prop :=
  s.lens.length = r ∧ s.strides.length = r

instance (s : shape) (r : Nat) : Decidable (s.has_rank r) := by
  unfold shape.has_rank
  infer_instance

/-- Subtraction of `std::size_t` values: wraps around 2^64 below zero. -/
def size_sub (a b : Nat) : Nat :=
  if b ≤ a then a - b else 2 ^ 64 - (b - a)

/-- The member `std::vector::at`: raises `out_of_range` outside the vector. -/
def vector_at {α : Type} (v : List α) (i : Nat) : Except error α :=
  match v[i]? with
  | some x => .ok x
  | none => .error .out_of_range

/-- The unchecked `operator[]` of `std::vector`. -/
def vector_index {α : Type} (v : List α) (i : Nat) : Except error α :=
  match v[i]? with
  | some x => .ok x
  | none => .error .undefined

/-- The member `std::vector::back`. -/
def vector_back {α : Type} (v : List α) : Except error α :=
  match v.getLast? with
  | some x => .ok x
  | none => .error .undefined

/-- The member `std::vector::pop_back`. -/
def vector_pop_back {α : Type} (v : List α) : Except error (List α) :=
  if v.isEmpty then .error .undefined else .ok v.dropLast

/-- Modelled from the spec: the operation parameters of `op::quant_dot`
(declared in `operators.hpp`): the two multipliers, at integral values, and
the shape rule of the operator, which `miopen_quant_gemm` delegates to. -/
structure quant_dot where
  alpha : Int
  beta : Int
  compute_shape : List shape → Except error shape

/-- Unification of two lists of batch lengths, given innermost first: equal
lengths stay, a length of one follows the other operand. -/
def broadcast_unify : List Nat → List Nat → Option (List Nat)
  | [], ys => some ys
  | x :: xs, [] => some (x :: xs)
  | x :: xs, y :: ys =>
    if x = y ∨ y = 1 then (broadcast_unify xs ys).map (fun r => x :: r)
    else if x = 1 then (broadcast_unify xs ys).map (fun r => y :: r)
    else none

/-- Modelled from the spec: the standard matrix-multiply shape rule
(`op.compute_shape`, declared in `operators.hpp`), section 4.1 step 5: batch
dimensions unified across A and B, followed by the rows of A and the columns of
B; it fails when the inner dimensions differ. The result is a standard 32-bit
integer shape. -/
def dot_compute_shape (inputs : List shape) : Except error shape :=
  match inputs with
  | a :: b :: _ =>
    match a.lens.reverse, b.lens.reverse with
    | ka :: m :: batch_a, n :: kb :: batch_b =>
      if ka ≠ kb then .error .op_error
      else
        match broadcast_unify batch_a batch_b with
        | some batch => .ok (shape.standard_of .int32_type (batch.reverse ++ [m, n]))
        | none => .error .op_error
    | _, _ => .error .op_error
  | _ => .error .op_error

/-- Modelled from the spec: `check_shapes::not_broadcasted` (declared in
`check_shapes.hpp`): fails when one of the shapes is broadcasted. -/
def check_shapes_not_broadcasted (input_shapes : List shape) : Except error Unit :=
  if input_shapes.any shape.broadcasted then .error .check_shapes else .ok ()

/-- An argument: a shape and a reference to the buffer that holds the data. -/
structure argument where
  get_shape : shape
  data : Nat
deriving DecidableEq, Repr

/-- The device stream of a context, with the vendor library handle bound to
it. -/
structure stream where
  get : Nat
  get_rocblas : Nat
deriving DecidableEq, Repr

/-- The compute context. -/
structure context where
  get_stream : stream
deriving DecidableEq, Repr

/-- Transpose flag of the vendor GEMM. -/
inductive rocblas_operation where
  | rocblas_operation_none
  | rocblas_operation_transpose
deriving DecidableEq, Repr

/-- Data-type tag of the vendor GEMM. -/
inductive rocblas_datatype where
  | rocblas_datatype_i8_r
  | rocblas_datatype_i32_r
deriving DecidableEq, Repr

/-- The arguments of `rocblas_gemm_ex`, in the order of the call, up to the
compute type. The trailing arguments (algorithm, solution index, flags,
workspace) are the same constants in every call and are left out.
The dimensions and leading dimensions are `rocblas_int` values. -/
structure gemm_ex_args where
  handle : Nat
  trans_a : rocblas_operation
  trans_b : rocblas_operation
  m : Int
  n : Int
  k : Int
  alpha : Int
  a : Nat
  a_type : rocblas_datatype
  lda : Int
  b : Nat
  b_type : rocblas_datatype
  ldb : Int
  beta : Int
  c : Nat
  c_type : rocblas_datatype
  ldc : Int
  d : Nat
  d_type : rocblas_datatype
  ldd : Int
  compute_type : rocblas_datatype
deriving DecidableEq, Repr

/-- The arguments of `rocblas_gemm_strided_batched_ex`: those of the single
call, the stride between consecutive matrices of each operand, and the batch
count. -/
structure gemm_strided_batched_ex_args where
  gemm : gemm_ex_args
  stride_a : Int
  stride_b : Int
  stride_c : Int
  stride_d : Int
  batch_count : Int
deriving DecidableEq, Repr

/-- A device call enqueued by `compute`. The pack kernels take the stream, the
buffer they write (`result`) and the argument they read (`arg`); the two GEMM
wrappers forward their arguments to the vendor entry points. -/
inductive device_call where
  | pack_a (stream : Nat) (result : argument) (arg : argument)
  | pack_b (stream : Nat) (result : argument) (arg : argument)
  | generic_rocblas_gemm_ex (x : gemm_ex_args)
  | generic_rocblas_batched_gemm_ex (x : gemm_strided_batched_ex_args)
deriving DecidableEq, Repr

/-- Conversion to a signed integer type of `w` bits (two's complement). -/
def wrap_signed (w : Nat) (x : Int) : Int :=
  (x + 2 ^ (w - 1)) % 2 ^ w - 2 ^ (w - 1)

/-- The conversion of a `std::size_t` value to `rocblas_int`, as in
`rocblas_int m = out_lens[dim_0]`; `rocblas_int` is the name the vendor library
gives to the 32-bit signed integer. -/
def to_rocblas_int (x : Nat) : Int :=
  wrap_signed 32 x

/-- The product of two `rocblas_int` values, computed in `int` (`k * n`,
`m * k`, `m * n`): a product outside the 32-bit range is taken to wrap, as the
multiplication does on the target. -/
def int_mul (a b : Int) : Int :=
  wrap_signed 32 (a * b)

/-- The product of two `std::size_t` values (`std::multiplies<std::size_t>`):
it wraps at 2^64. -/
def size_mul (a b : Nat) : Nat :=
  (a * b) % 2 ^ 64

/-- The conversion `as(x)` to the element type selected by `visit_type`. -/
def type_t.as (t : type_t) (x : Int) : Int :=
  match t with
  | .int8_type => wrap_signed 8 x
  | .int32_type => wrap_signed 32 x

/-- The flag handed to the vendor kernel for a transposed predicate. -/
def to_rocblas_operation (trans : Bool) : rocblas_operation :=
  if trans then .rocblas_operation_transpose else .rocblas_operation_none

namespace gpu

/-- The GPU instruction wrapping the quantized dot operator. -/
structure miopen_quant_gemm where
  op : quant_dot

/-- The vector `input_shapes` of `compute_shape` when it reaches the
broadcast check (lines 57-67). -/
def miopen_quant_gemm.input_shapes (inputs : List shape) : Except error (List shape) := do
  let s0 ← vector_pop_back inputs
  let b ← vector_at inputs 1
  let s1 ← if !b.transposed then vector_pop_back s0 else pure s0
  let a ← vector_at inputs 0
  let s2 ← if a.transposed then vector_pop_back s1 else pure s1
  pure s2

/-- The function `miopen_quant_gemm::compute_shape` (lines 55-71). -/
def miopen_quant_gemm.compute_shape (self : miopen_quant_gemm) (inputs : List shape) :
    Except error shape := do
  let input_shapes ← miopen_quant_gemm.input_shapes inputs
  check_shapes_not_broadcasted input_shapes
  self.op.compute_shape input_shapes

/-- The local variables of `compute` when it returns, and the device calls it
has enqueued, in order. -/
structure compute_frame where
  arg_res : argument
  transa : Bool
  transb : Bool
  lda : Int
  ldb : Int
  ldc : Int
  arg_b : argument
  arg_a : argument
  pack_arg_num : Nat
  is_3inputs : Bool
  beta : Int
  alpha_r : Int
  beta_r : Int
  m : Int
  n : Int
  k : Int
  num_matrices : Nat
  calls : List device_call
deriving DecidableEq, Repr

/-- Lines 88-95 of `compute`: the buffer used for B, the scratch slots
consumed so far, and the pack call enqueued. -/
def miopen_quant_gemm.handle_b (ctx : context) (args : List argument) (transb : Bool) :
    Except error (argument × Nat × List device_call) := do
  let arg_b ← vector_at args 1
  if !transb then
    let arg_b ← vector_at args (size_sub args.length 2)
    let src ← vector_index args 1
    pure (arg_b, 1, [device_call.pack_a ctx.get_stream.get arg_b src])
  else
    pure (arg_b, 0, [])

/-- Lines 99-105 of `compute`: the buffer used for A, the scratch slots
consumed so far, and the pack call enqueued. -/
def miopen_quant_gemm.handle_a (ctx : context) (args : List argument) (transa : Bool)
    (pack_arg_num : Nat) : Except error (argument × Nat × List device_call) := do
  let arg_a ← vector_at args 0
  if transa then
    let arg_a ← vector_at args (size_sub (size_sub args.length 2) pack_arg_num)
    let src ← vector_index args 0
    pure (arg_a, pack_arg_num + 1, [device_call.pack_b ctx.get_stream.get arg_a src])
  else
    pure (arg_a, pack_arg_num, [])

/-- The body of `miopen_quant_gemm::compute` (lines 73-199), keeping its local
variables. -/
def miopen_quant_gemm.compute_frame (self : miopen_quant_gemm) (ctx : context)
    (output_shape : shape) (args : List argument) : Except error compute_frame := do
  let arg_res ← vector_back args
  let args0 ← vector_index args 0
  let transa := args0.get_shape.transposed
  let args1 ← vector_index args 1
  let transb := args1.get_shape.transposed
  let n_dim := output_shape.lens.length
  let dim_1 := size_sub n_dim 1
  let dim_0 := size_sub n_dim 2
  let lda ← to_rocblas_int <$>
    vector_index args0.get_shape.strides (if transa then dim_1 else dim_0)
  let ldb ← to_rocblas_int <$>
    vector_index args1.get_shape.strides (if transb then dim_1 else dim_0)
  let ldc ← to_rocblas_int <$> vector_index arg_res.get_shape.strides dim_0
  let hb ← miopen_quant_gemm.handle_b ctx args transb
  let ha ← miopen_quant_gemm.handle_a ctx args transa hb.2.1
  let arg_b := hb.1
  let arg_a := ha.1
  let pack_arg_num := ha.2.1
  let is_3inputs := decide (size_sub args.length pack_arg_num = 4)
  let beta : Int := if is_3inputs then wrap_signed 8 self.op.beta else 0
  let alpha_r := output_shape.type.as self.op.alpha
  let beta_r := output_shape.type.as beta
  let out_lens := output_shape.lens
  let m ← to_rocblas_int <$> vector_index out_lens dim_0
  let n ← to_rocblas_int <$> vector_index out_lens dim_1
  let k ← to_rocblas_int <$> vector_index args0.get_shape.lens dim_1
  if k.tmod 4 ≠ 0 then throw error.assertion
  let num_matrices := (out_lens.reverse.drop 2).foldl size_mul 1
  let args2 ← vector_index args 2
  let gemm : gemm_ex_args :=
    { handle := ctx.get_stream.get_rocblas
      trans_a := to_rocblas_operation transb
      trans_b := to_rocblas_operation transa
      m := n
      n := m
      k := k
      alpha := alpha_r
      a := arg_b.data
      a_type := .rocblas_datatype_i8_r
      lda := ldb
      b := arg_a.data
      b_type := .rocblas_datatype_i8_r
      ldb := lda
      beta := beta_r
      c := args2.data
      c_type := .rocblas_datatype_i32_r
      ldc := ldc
      d := arg_res.data
      d_type := .rocblas_datatype_i32_r
      ldd := ldc
      compute_type := .rocblas_datatype_i32_r }
  let call :=
    if num_matrices = 1 then device_call.generic_rocblas_gemm_ex gemm
    else device_call.generic_rocblas_batched_gemm_ex
      { gemm := gemm
        stride_a := int_mul k n
        stride_b := int_mul m k
        stride_c := int_mul m n
        stride_d := int_mul m n
        batch_count := to_rocblas_int num_matrices }
  pure
    { arg_res := arg_res
      transa := transa
      transb := transb
      lda := lda
      ldb := ldb
      ldc := ldc
      arg_b := arg_b
      arg_a := arg_a
      pack_arg_num := pack_arg_num
      is_3inputs := is_3inputs
      beta := beta
      alpha_r := alpha_r
      beta_r := beta_r
      m := m
      n := n
      k := k
      num_matrices := num_matrices
      calls := hb.2.2 ++ ha.2.2 ++ [call] }

/-- The function `miopen_quant_gemm::compute`: the argument it returns and the
device calls it enqueues, in order. -/
def miopen_quant_gemm.compute (self : miopen_quant_gemm) (ctx : context)
    (output_shape : shape) (args : List argument) :
    Except error (argument × List device_call) := do
  let f ← self.compute_frame ctx output_shape args
  pure (f.arg_res, f.calls)

/-- Number of trailing shapes `compute_shape` pops for operands `a` and `b`:
one always, one more when `b` is not transposed, one more when `a` is. -/
def removed_shapes (a b : shape) : Nat :=
  1 + (if b.transposed then 0 else 1) + (if a.transposed then 1 else 0)

/-- The GEMM arguments `compute` builds from its local variables (lines
134-154 and 164-189). -/
def compute_frame.gemm (ctx : context) (args2 : argument) (f : compute_frame) : gemm_ex_args :=
  { handle := ctx.get_stream.get_rocblas
    trans_a := to_rocblas_operation f.transb
    trans_b := to_rocblas_operation f.transa
    m := f.n
    n := f.m
    k := f.k
    alpha := f.alpha_r
    a := f.arg_b.data
    a_type := .rocblas_datatype_i8_r
    lda := f.ldb
    b := f.arg_a.data
    b_type := .rocblas_datatype_i8_r
    ldb := f.lda
    beta := f.beta_r
    c := args2.data
    c_type := .rocblas_datatype_i32_r
    ldc := f.ldc
    d := f.arg_res.data
    d_type := .rocblas_datatype_i32_r
    ldd := f.ldc
    compute_type := .rocblas_datatype_i32_r }

/-- The kernel call `compute` enqueues last, from its local variables. -/
def compute_frame.kernel_call (ctx : context) (args2 : argument) (f : compute_frame) :
    device_call :=
  if f.num_matrices = 1 then device_call.generic_rocblas_gemm_ex (f.gemm ctx args2)
  else device_call.generic_rocblas_batched_gemm_ex
    { gemm := f.gemm ctx args2
      stride_a := int_mul f.k f.n
      stride_b := int_mul f.m f.k
      stride_c := int_mul f.m f.n
      stride_d := int_mul f.m f.n
      batch_count := to_rocblas_int f.num_matrices }

/-- A sufficient condition for every lookup of `compute` to be in range and
for its assertion to hold: at least three arguments; an output shape of rank
at least two; strides of A, of B and of the last argument of at least that
rank; and a multiple of four as the length of A at the last axis of the output
shape. -/
def compute_pre (output_shape : shape) (args : List argument) : Bool :=
  match args with
  | a :: b :: rest =>
    decide (1 ≤ rest.length) &&
      decide (2 ≤ output_shape.lens.length) &&
      decide (output_shape.lens.length ≤ a.get_shape.strides.length) &&
      decide (output_shape.lens.length ≤ b.get_shape.strides.length) &&
      (match rest.getLast? with
        | some res => decide (output_shape.lens.length ≤ res.get_shape.strides.length)
        | none => false) &&
      (match a.get_shape.lens[output_shape.lens.length - 1]? with
        | some k => decide (k % 4 = 0)
        | none => false)
  | _ => false

end gpu

/-- Contents of device memory: buffer reference, then element index. -/
abbrev memory := Nat → Nat → Int

/-- Modelled from the spec: the conversion of a value to the data type of a
tag of the vendor GEMM. -/
def rocblas_datatype.convert (t : rocblas_datatype) (x : Int) : Int :=
  match t with
  | .rocblas_datatype_i8_r => wrap_signed 8 x
  | .rocblas_datatype_i32_r => wrap_signed 32 x

/-- Modelled from the spec: entry `(r, c)` of `op(X)` for a column-major matrix
`X` with leading dimension `ld`. -/
def op_entry (buf : Nat → Int) (trans : rocblas_operation) (ld : Nat) (r c : Nat) : Int :=
  match trans with
  | .rocblas_operation_none => buf (r + c * ld)
  | .rocblas_operation_transpose => buf (c + r * ld)

/-- Modelled from the spec: entry `(i, j)` of `alpha * op(A) * op(B) + beta * C`
in the column-major reading of the vendor GEMM, the operands starting at the
given offsets of their buffers. The operands are read in the data types of
their tags, the sum is converted to the compute type (an accumulation in that
type, which wraps, gives the same value) and then to the type of the result. -/
def gemm_entry (x : gemm_ex_args) (mem : memory) (oa ob oc : Nat) (i j : Nat) : Int :=
  x.d_type.convert (x.compute_type.convert
    (x.alpha * ((List.range x.k.toNat).map (fun l =>
        x.a_type.convert (op_entry (fun t => mem x.a (oa + t)) x.trans_a x.lda.toNat i l) *
          x.b_type.convert
            (op_entry (fun t => mem x.b (ob + t)) x.trans_b x.ldb.toNat l j))).sum
      + x.beta * x.c_type.convert (mem x.c (oc + (i + j * x.ldc.toNat)))))

/-- Modelled from the spec: the sizes the vendor GEMM accepts: no negative
dimension, and for each matrix a leading dimension of at least its number of
rows as stored (`m` or `k` for the first operand, `k` or `n` for the second,
by their transpose flags, and `m` for the accumulator input and the result).
It leaves the memory as it is otherwise. -/
def gemm_valid (x : gemm_ex_args) : Prop :=
  0 ≤ x.m ∧ 0 ≤ x.n ∧ 0 ≤ x.k ∧
    (if x.trans_a = .rocblas_operation_none then x.m else x.k) ≤ x.lda ∧
    (if x.trans_b = .rocblas_operation_none then x.k else x.n) ≤ x.ldb ∧
    x.m ≤ x.ldc ∧ x.m ≤ x.ldd

instance (x : gemm_ex_args) : Decidable (gemm_valid x) := by
  unfold gemm_valid
  infer_instance

/-- Modelled from the spec: the vendor GEMM, read column-major. It writes the
`m` by `n` entries of the result into `d` with leading dimension `ldd`. It has
no result when the output buffer is one of the two matrix operands. -/
def rocblas_gemm_ex (x : gemm_ex_args) (mem : memory) : Option memory :=
  if x.d = x.a ∨ x.d = x.b then none
  else some (fun buf idx =>
    if buf = x.d ∧ gemm_valid x ∧ idx % x.ldd.toNat < x.m.toNat ∧
        idx / x.ldd.toNat < x.n.toNat then
      gemm_entry x mem 0 0 0 (idx % x.ldd.toNat) (idx / x.ldd.toNat)
    else mem buf idx)

/-- Modelled from the spec: whether the `m` by `n` result that starts at offset
`od` of the buffer `d` has an entry at element `idx` of buffer `buf`. -/
def gemm_covers (x : gemm_ex_args) (od : Nat) (buf idx : Nat) : Prop :=
  buf = x.d ∧ gemm_valid x ∧ od ≤ idx ∧ (idx - od) % x.ldd.toNat < x.m.toNat ∧
    (idx - od) / x.ldd.toNat < x.n.toNat

instance (x : gemm_ex_args) (od buf idx : Nat) : Decidable (gemm_covers x od buf idx) := by
  unfold gemm_covers
  infer_instance

/-- Modelled from the spec: one matrix product of a batch. The operands are
read in `src` at their offsets, the result is written at offset `od` of `d`,
and every other element keeps its value in `acc`. -/
def gemm_write (x : gemm_ex_args) (src : memory) (oa ob oc od : Nat) (acc : memory) : memory :=
  fun buf idx =>
    if gemm_covers x od buf idx then
      gemm_entry x src oa ob oc ((idx - od) % x.ldd.toNat) ((idx - od) / x.ldd.toNat)
    else acc buf idx

/-- Modelled from the spec: the strided-batched vendor GEMM: for every `b`
below the batch count, one plain GEMM on the matrices that start `b` strides
into their buffers, the operands being read as they were before the call. With
a batch count of one it is the plain GEMM. It has no result when the output
buffer is one of the two matrix operands. -/
def rocblas_gemm_strided_batched_ex (x : gemm_strided_batched_ex_args) (mem : memory) :
    Option memory :=
  if x.gemm.d = x.gemm.a ∨ x.gemm.d = x.gemm.b then none
  else some ((List.range x.batch_count.toNat).foldl
    (fun acc (b : Nat) =>
      gemm_write x.gemm mem ((b : Int) * x.stride_a).toNat ((b : Int) * x.stride_b).toNat
        ((b : Int) * x.stride_c).toNat ((b : Int) * x.stride_d).toNat acc)
    mem)

/-- Modelled from the spec: the pack kernels (`device/pack.hpp`) repack the
argument into the result buffer so that the vendor kernel reads the same
logical values from it; they write the result buffer only. -/
def pack (result arg : argument) (mem : memory) : memory :=
  fun buf => if buf = result.data then mem arg.data else mem buf

/-- The effect of one device call on memory, if it has one. -/
def device_call.exec (c : device_call) (mem : memory) : Option memory :=
  match c with
  | .pack_a _ result arg => some (pack result arg mem)
  | .pack_b _ result arg => some (pack result arg mem)
  | .generic_rocblas_gemm_ex x => rocblas_gemm_ex x mem
  | .generic_rocblas_batched_gemm_ex x => rocblas_gemm_strided_batched_ex x mem

/-- The effect of the calls of a stream, executed in enqueue order. -/
def run (calls : List device_call) (mem : memory) : Option memory :=
  calls.foldl (fun m c => m.bind c.exec) (some mem)

/-- The element of an argument at a multi-index, read in the element type of
its shape. -/
def argument.element (a : argument) (mem : memory) (idx : List Nat) : Int :=
  a.get_shape.type.as (mem a.data (a.get_shape.index idx))

/-- The GEMM arguments of a kernel call; none for a pack call. -/
def device_call.gemm_args (c : device_call) : Option gemm_ex_args :=
  match c with
  | .pack_a _ _ _ => none
  | .pack_b _ _ _ => none
  | .generic_rocblas_gemm_ex x => some x
  | .generic_rocblas_batched_gemm_ex x => some x.gemm

/-- Whether a call is a launch of the vendor GEMM. -/
def device_call.is_gemm (c : device_call) : Bool :=
  c.gemm_args.isSome

/-- Whether a call is enqueued on the given stream: a pack kernel through the
stream itself, a GEMM through the vendor handle bound to it. -/
def device_call.on_stream (s : stream) (c : device_call) : Bool :=
  match c with
  | .pack_a st _ _ => decide (st = s.get)
  | .pack_b st _ _ => decide (st = s.get)
  | .generic_rocblas_gemm_ex x => decide (x.handle = s.get_rocblas)
  | .generic_rocblas_batched_gemm_ex x => decide (x.gemm.handle = s.get_rocblas)

/-- The vendor data-type tag of an element type. -/
def to_rocblas_datatype (t : type_t) : rocblas_datatype :=
  match t with
  | .int8_type => .rocblas_datatype_i8_r
  | .int32_type => .rocblas_datatype_i32_r

namespace gpu

/-- The single-matrix call of `compute` (lines 134-159), from its local
variables. -/
def compute_frame.single_call (ctx : context) (args2 : argument) (f : compute_frame) :
    device_call :=
  device_call.generic_rocblas_gemm_ex (f.gemm ctx args2)

/-- The strided-batched call of `compute` (lines 163-194), from its local
variables. -/
def compute_frame.batched_call (ctx : context) (args2 : argument) (f : compute_frame) :
    device_call :=
  device_call.generic_rocblas_batched_gemm_ex
    { gemm := f.gemm ctx args2
      stride_a := int_mul f.k f.n
      stride_b := int_mul f.m f.k
      stride_c := int_mul f.m f.n
      stride_d := int_mul f.m f.n
      batch_count := to_rocblas_int f.num_matrices }

/-- The calls of `compute` with the kernel call, which is the last one,
replaced by the given call: the invocation forced through one kernel variant. -/
def compute_frame.forced_calls (f : compute_frame) (call : device_call) : List device_call :=
  f.calls.dropLast ++ [call]

/-- The variant of `compute` that handles the packing of A (lines 99-105) before
the packing of B (lines 88-95), everything else unchanged: `pack_arg_num` is
still zero when the slot of A is looked up, both steps increment it, and the
pack call for A is enqueued first. -/
def miopen_quant_gemm.compute_frame_reordered (self : miopen_quant_gemm) (ctx : context)
    (output_shape : shape) (args : List argument) : Except error gpu.compute_frame := do
  let arg_res ← vector_back args
  let args0 ← vector_index args 0
  let transa := args0.get_shape.transposed
  let args1 ← vector_index args 1
  let transb := args1.get_shape.transposed
  let n_dim := output_shape.lens.length
  let dim_1 := size_sub n_dim 1
  let dim_0 := size_sub n_dim 2
  let lda ← to_rocblas_int <$>
    vector_index args0.get_shape.strides (if transa then dim_1 else dim_0)
  let ldb ← to_rocblas_int <$>
    vector_index args1.get_shape.strides (if transb then dim_1 else dim_0)
  let ldc ← to_rocblas_int <$> vector_index arg_res.get_shape.strides dim_0
  let ha ← miopen_quant_gemm.handle_a ctx args transa 0
  let hb ← miopen_quant_gemm.handle_b ctx args transb
  let arg_b := hb.1
  let arg_a := ha.1
  let pack_arg_num := ha.2.1 + hb.2.1
  let is_3inputs := decide (size_sub args.length pack_arg_num = 4)
  let beta : Int := if is_3inputs then wrap_signed 8 self.op.beta else 0
  let alpha_r := output_shape.type.as self.op.alpha
  let beta_r := output_shape.type.as beta
  let out_lens := output_shape.lens
  let m ← to_rocblas_int <$> vector_index out_lens dim_0
  let n ← to_rocblas_int <$> vector_index out_lens dim_1
  let k ← to_rocblas_int <$> vector_index args0.get_shape.lens dim_1
  if k.tmod 4 ≠ 0 then throw error.assertion
  let num_matrices := (out_lens.reverse.drop 2).foldl size_mul 1
  let args2 ← vector_index args 2
  let f : gpu.compute_frame :=
    { arg_res := arg_res
      transa := transa
      transb := transb
      lda := lda
      ldb := ldb
      ldc := ldc
      arg_b := arg_b
      arg_a := arg_a
      pack_arg_num := pack_arg_num
      is_3inputs := is_3inputs
      beta := beta
      alpha_r := alpha_r
      beta_r := beta_r
      m := m
      n := n
      k := k
      num_matrices := num_matrices
      calls := [] }
  pure { f with calls := ha.2.2 ++ hb.2.2 ++ [f.kernel_call ctx args2] }

/-- The reordered variant as a whole: the argument it returns and the device
calls it enqueues, in order. -/
def miopen_quant_gemm.compute_reordered (self : miopen_quant_gemm) (ctx : context)
    (output_shape : shape) (args : List argument) :
    Except error (argument × List device_call) := do
  let f ← self.compute_frame_reordered ctx output_shape args
  pure (f.arg_res, f.calls)

/-- The instruction with unit multipliers and the standard shape rule. -/
def standard_quant_gemm : miopen_quant_gemm :=
  { op := { alpha := 1, beta := 1, compute_shape := dot_compute_shape } }

end gpu

/-- A rows by cols matrix in standard row-major layout, in buffer `buf`. -/
def matrix_argument (t : type_t) (rows cols buf : Nat) : argument :=
  { get_shape := shape.standard_of t [rows, cols], data := buf }

/-- A rows by cols matrix declared transposed: logical lengths `{rows, cols}`
stored with the swapped strides `{1, rows}`, in buffer `buf`. -/
def transposed_matrix_argument (t : type_t) (rows cols buf : Nat) : argument :=
  { get_shape := { type := t, lens := [rows, cols], strides := [1, rows] }, data := buf }

/-- Entry `(i, j)` of the exact integer product of the matrices `a` (with `k`
columns) and `b` as stored in `mem`. -/
def matrix_product_entry (mem : memory) (a b : argument) (k i j : Nat) : Int :=
  ((List.range k).map (fun l => a.element mem [i, l] * b.element mem [l, j])).sum

/-- A batch of `batch` matrices of `rows` by `cols`, densely packed in standard
row-major layout, in buffer `buf`. -/
def batched_argument (t : type_t) (batch rows cols buf : Nat) : argument :=
  { get_shape := shape.standard_of t [batch, rows, cols], data := buf }

/-- Entry `(i, j)` of the exact integer product of the matrices number `bi` of
the batches `a` (matrices with `k` columns) and `b` as stored in `mem`. -/
def batch_product_entry (mem : memory) (a b : argument) (k bi i j : Nat) : Int :=
  ((List.range k).map (fun l => a.element mem [bi, i, l] * b.element mem [bi, l, j])).sum

/-! ## The compile check of the test harness (`test/gpu/miopen.cpp`) -/

/-- A compilation target, with its name. -/
structure target where
  name : String
deriving DecidableEq, Repr

/-- Modelled from the spec: the operations of `program` the harness uses
(declared in `program.hpp`): the shape of a program, and its compilation for a
target, which yields the compiled program or raises. -/
structure program_ops (P E : Type) where
  get_shape : P → shape
  compile : P → target → Except E P

/-- How `compile_check` ends: it returns, it throws its `runtime_error`, or the
exception of `compile` propagates. The first two carry the program as
`compile` left it. -/
inductive compile_check_outcome (P E : Type) where
  | returned (p : P)
  | runtime_error (what : String) (p : P)
  | compile_raised (e : E)
deriving DecidableEq, Repr

/-- The text of the exception of `compile_check`. -/
def alters_shape_message (name : String) : String :=
  ("Compiling program with " ++ name) ++ " alters its shape"

/-- The function `compile_check` (lines 84-95 of the test); the trace printed
before the exception is not modelled. -/
def compile_check {P E : Type} (ops : program_ops P E) (p : P) (t : target) :
    compile_check_outcome P E :=
  let name := t.name
  let s := ops.get_shape p
  match ops.compile p t with
  | .error e => .compile_raised e
  | .ok compiled =>
    if ops.get_shape compiled ≠ s then .runtime_error (alters_shape_message name) compiled
    else .returned compiled

/-- A sample program: its shape and the name of the target it was compiled
for, if any. -/
structure sample_program where
  shape : shape
  compiled_for : Option String
deriving DecidableEq, Repr

/-- Sample operations: compiling for the target named `gpu` keeps the shape,
compiling for any other target replaces it by the 2 by 8 shape. -/
def sample_program_ops : program_ops sample_program Unit :=
  { get_shape := fun p => p.shape
    compile := fun p t =>
      .ok { shape := if t.name = "gpu" then p.shape
                     else { type := .int8_type, lens := [2, 8], strides := [8, 1] }
            compiled_for := some t.name } }

/-! ## Sample shapes and arguments -/

/-- A standard 2 by 8 operand A. -/
def sample_a : shape := shape.standard_of .int8_type [2, 8]

/-- A 2 by 8 operand A stored transposed. -/
def sample_a_transposed : shape := { type := .int8_type, lens := [2, 8], strides := [1, 2] }

/-- A 2 by 8 operand A whose last axis is broadcasted. -/
def sample_a_broadcasted : shape := { type := .int8_type, lens := [2, 8], strides := [8, 0] }

/-- A standard 8 by 3 operand B. -/
def sample_b : shape := shape.standard_of .int8_type [8, 3]

/-- An 8 by 3 operand B stored transposed. -/
def sample_b_transposed : shape := { type := .int8_type, lens := [8, 3], strides := [1, 8] }

/-- The standard 2 by 3 output. -/
def sample_out : shape := shape.standard_of .int32_type [2, 3]

/-- The instruction with the standard shape rule, alpha 1 and beta 200. -/
def wide_beta_quant_gemm : gpu.miopen_quant_gemm :=
  { op := { alpha := 1, beta := 200, compute_shape := dot_compute_shape } }

/-- A 2 by 4 operand A stored transposed. -/
def small_a_transposed : shape := { type := .int8_type, lens := [2, 4], strides := [1, 2] }

/-- A standard 4 by 1 operand B. -/
def small_b : shape := shape.standard_of .int8_type [4, 1]

/-- The standard 2 by 1 output. -/
def small_out : shape := shape.standard_of .int32_type [2, 1]

/-- A context with stream 7 and vendor handle 9. -/
def sample_ctx : context := { get_stream := { get := 7, get_rocblas := 9 } }

/-- Arguments over the given shapes, the argument at position `i` referring to
buffer `i`. -/
def sample_args (shapes : List shape) : List argument :=
  (shapes.zip (List.range shapes.length)).map (fun p => { get_shape := p.1, data := p.2 })

/-- A memory with distinct values in the first buffers. -/
def sample_mem : memory :=
  fun buf idx => if buf = 0 then (idx : Int) + 1 else if buf = 1 then 2 * (idx : Int) - 5 else 77

/-- A matrix with 2147483650 rows, more than a `rocblas_int` holds. -/
def tall_a : shape := shape.standard_of .int8_type [2147483650, 8]

/-- The output of the product of `tall_a` and an 8 by 3 matrix. -/
def tall_out : shape := shape.standard_of .int32_type [2147483650, 3]

/-- A row of 133200 entries in buffer 0. -/
def long_a : argument := matrix_argument .int8_type 1 133200 0

/-- A column of 133200 entries, declared transposed, in buffer 1. -/
def long_b_transposed : argument := transposed_matrix_argument .int8_type 133200 1 1

/-- A column of 133200 entries in standard layout, in buffer 1. -/
def long_b : argument := matrix_argument .int8_type 133200 1 1

/-- A 1 by 1 output in buffer `buf`. -/
def unit_out (buf : Nat) : argument := matrix_argument .int32_type 1 1 buf

/-- A memory that holds 127, the largest 8-bit value, everywhere. -/
def full_mem : memory := fun _ _ => 127

/-- A batch of 3 * 12297829382473034411 = 2^65 + 1 matrices of 2 by 4. -/
def wrapping_batch_a : shape :=
  shape.standard_of .int8_type [3, 12297829382473034411, 2, 4]

/-- A batch of 2^65 + 1 matrices of 4 by 3. -/
def wrapping_batch_b : shape :=
  shape.standard_of .int8_type [3, 12297829382473034411, 4, 3]

/-- The output of the product of `wrapping_batch_a` and `wrapping_batch_b`. -/
def wrapping_batch_out : shape :=
  shape.standard_of .int32_type [3, 12297829382473034411, 2, 3]

/-- A batch of two matrices of 1 by 65536. -/
def wide_a : shape := shape.standard_of .int8_type [2, 1, 65536]

/-- A batch of two matrices of 65536 by 65536. -/
def wide_b : shape := shape.standard_of .int8_type [2, 65536, 65536]

/-- The output of the product of `wide_a` and `wide_b`. -/
def wide_out : shape := shape.standard_of .int32_type [2, 1, 65536]

end migraphx

/-! ## Lemmas on the vector operations and on the two functions -/

namespace migraphx
namespace gpu

theorem vector_pop_back_ok {α : Type} (v : List α) (h : 0 < v.length) :
    vector_pop_back v = .ok (v.take (v.length - 1)) := by
  unfold vector_pop_back
  have hne : v.isEmpty = false := by
    cases v with
    | nil => simp at h
    | cons x xs => rfl
  simp [hne, List.dropLast_eq_take]

theorem vector_pop_back_take {α : Type} (v : List α) (n : Nat) (h : 0 < n)
    (hn : n ≤ v.length) : vector_pop_back (v.take n) = .ok (v.take (n - 1)) := by
  rw [vector_pop_back_ok (v.take n) (by simp; omega)]
  simp [List.take_take]
  omega

theorem vector_at_ok {α : Type} (v : List α) (i : Nat) (x : α) (h : v[i]? = some x) :
    vector_at v i = .ok x := by
  simp [vector_at, h]

theorem vector_index_ok {α : Type} (v : List α) (i : Nat) (x : α) (h : v[i]? = some x) :
    vector_index v i = .ok x := by
  simp [vector_index, h]

theorem input_shapes_ok (a b : shape) (rest : List shape)
    (hlen : removed_shapes a b ≤ (a :: b :: rest).length) :
    miopen_quant_gemm.input_shapes (a :: b :: rest) =
      .ok ((a :: b :: rest).take ((a :: b :: rest).length - removed_shapes a b)) := by
  generalize hv : a :: b :: rest = v at *
  have h0 : v[0]? = some a := by rw [← hv]; simp
  have h1 : v[1]? = some b := by rw [← hv]; simp
  unfold miopen_quant_gemm.input_shapes
  unfold removed_shapes at *
  rw [vector_pop_back_ok v (by omega), vector_at_ok v 1 b h1, vector_at_ok v 0 a h0]
  cases hb : b.transposed <;> cases ha : a.transposed <;>
    simp [hb, ha, bind, Except.bind, pure, Except.pure] at hlen ⊢
  · rw [vector_pop_back_take v _ (by omega) (by omega)]
    simp; omega
  · rw [vector_pop_back_take v _ (by omega) (by omega)]
    simp
    rw [vector_pop_back_take v _ (by omega) (by omega)]
    simp; omega
  · rw [vector_pop_back_take v _ (by omega) (by omega)]
    simp; omega


theorem vector_index_lt {α : Type} (v : List α) (i : Nat) (h : i < v.length) :
    vector_index v i = .ok (v.get ⟨i, h⟩) := by
  simp [vector_index, List.getElem?_eq_getElem h]

theorem vector_at_lt {α : Type} (v : List α) (i : Nat) (h : i < v.length) :
    vector_at v i = .ok (v.get ⟨i, h⟩) := by
  simp [vector_at, List.getElem?_eq_getElem h]

theorem size_sub_le (a b : Nat) (h : b ≤ a) : size_sub a b = a - b := by
  simp [size_sub, h]

theorem vector_index_total {α : Type} (v : List α) (i : Nat) (h : i < v.length) :
    ∃ x, vector_index v i = .ok x ∧ v[i]? = some x :=
  ⟨v.get ⟨i, h⟩, vector_index_lt v i h, by simp [List.getElem?_eq_getElem h]⟩

theorem handle_b_total (ctx : context) (args : List argument) (transb : Bool)
    (h : 2 ≤ args.length) :
    ∃ hb, miopen_quant_gemm.handle_b ctx args transb = .ok hb ∧ hb.2.1 ≤ 1 := by
  unfold miopen_quant_gemm.handle_b
  rw [vector_at_lt args 1 (by omega), vector_index_lt args 1 (by omega),
    size_sub_le _ _ h, vector_at_lt args (args.length - 2) (by omega)]
  cases transb <;> simp [bind, Except.bind, pure, Except.pure]

theorem handle_a_total (ctx : context) (args : List argument) (transa : Bool) (p : Nat)
    (h : 3 ≤ args.length) (hp : p ≤ 1) :
    ∃ ha, miopen_quant_gemm.handle_a ctx args transa p = .ok ha := by
  unfold miopen_quant_gemm.handle_a
  rw [vector_at_lt args 0 (by omega), vector_index_lt args 0 (by omega),
    size_sub_le _ _ (by omega : 2 ≤ args.length), size_sub_le _ _ (by omega),
    vector_at_lt args (args.length - 2 - p) (by omega)]
  cases transa <;> simp [bind, Except.bind, pure, Except.pure]

theorem to_rocblas_int_of_lt (x : Nat) (h : x < 2 ^ 31) : to_rocblas_int x = x := by
  unfold to_rocblas_int wrap_signed
  norm_num at h ⊢
  omega

theorem to_rocblas_int_tmod (k : Nat) (h : k % 4 = 0) : (to_rocblas_int k).tmod 4 = 0 := by
  apply Int.tmod_eq_zero_of_dvd
  unfold to_rocblas_int wrap_signed
  norm_num
  omega

theorem except_map_ok {ε α β : Type} (g : α → β) (x : Except ε α) (a : α) (h : x = .ok a) :
    g <$> x = .ok (g a) := by
  rw [h]
  rfl

theorem except_map_eq_ok {ε α β : Type} (g : α → β) (x : Except ε α) (y : β)
    (h : g <$> x = .ok y) : ∃ a, x = .ok a ∧ y = g a := by
  cases x with
  | error e => simp [Functor.map, Except.map] at h
  | ok a =>
    simp only [Functor.map, Except.map, Except.ok.injEq] at h
    exact ⟨a, rfl, h.symm⟩

theorem compute_frame_total (self : miopen_quant_gemm) (ctx : context) (output_shape : shape)
    (args : List argument) (h : compute_pre output_shape args = true) :
    ∃ f, self.compute_frame ctx output_shape args = .ok f := by
  match args, h with
  | a :: b :: rest, h =>
    simp only [compute_pre, Bool.and_eq_true, decide_eq_true_eq] at h
    obtain ⟨⟨⟨⟨⟨hlen, hr⟩, hsa⟩, hsb⟩, hres⟩, hk⟩ := h
    cases hlast : rest.getLast? with
    | none => simp [hlast] at hres
    | some res =>
      cases hkk : a.get_shape.lens[output_shape.lens.length - 1]? with
      | none => simp [hkk] at hk
      | some k =>
        simp only [hlast, hkk, decide_eq_true_eq] at hres hk
        have hk4 : k % 4 = 0 := hk
        have hback : vector_back (a :: b :: rest) = .ok res := by
          have hne : rest ≠ [] := by
            intro hnil
            simp [hnil] at hlast
          cases rest with
          | nil => exact absurd rfl hne
          | cons c cs => simp [vector_back, List.getLast?_cons_cons, hlast]
        have h0 : vector_index (a :: b :: rest) 0 = .ok a := by simp [vector_index]
        have h1 : vector_index (a :: b :: rest) 1 = .ok b := by simp [vector_index]
        have hd1 : size_sub output_shape.lens.length 1 = output_shape.lens.length - 1 :=
          size_sub_le _ _ (by omega)
        have hd0 : size_sub output_shape.lens.length 2 = output_shape.lens.length - 2 :=
          size_sub_le _ _ (by omega)
        obtain ⟨lda, hlda, -⟩ := vector_index_total a.get_shape.strides
          (if a.get_shape.transposed then size_sub output_shape.lens.length 1
            else size_sub output_shape.lens.length 2) (by rw [hd1, hd0]; split <;> omega)
        obtain ⟨ldb, hldb, -⟩ := vector_index_total b.get_shape.strides
          (if b.get_shape.transposed then size_sub output_shape.lens.length 1
            else size_sub output_shape.lens.length 2) (by rw [hd1, hd0]; split <;> omega)
        obtain ⟨ldc, hldc, -⟩ := vector_index_total res.get_shape.strides
          (size_sub output_shape.lens.length 2) (by rw [hd0]; omega)
        obtain ⟨hb, hhb, hp⟩ := handle_b_total ctx (a :: b :: rest) b.get_shape.transposed
          (by simp)
        obtain ⟨ha, hha⟩ := handle_a_total ctx (a :: b :: rest) a.get_shape.transposed hb.2.1
          (by simp; omega) hp
        obtain ⟨m, hm, -⟩ := vector_index_total output_shape.lens
          (size_sub output_shape.lens.length 2) (by rw [hd0]; omega)
        obtain ⟨n, hn, -⟩ := vector_index_total output_shape.lens
          (size_sub output_shape.lens.length 1) (by rw [hd1]; omega)
        have hkl : vector_index a.get_shape.lens (size_sub output_shape.lens.length 1) = .ok k := by
          rw [hd1]; simp [vector_index, hkk]
        obtain ⟨args2, h2, -⟩ := vector_index_total (a :: b :: rest) 2 (by simp; omega)
        have hk4' := to_rocblas_int_tmod k hk4
        unfold miopen_quant_gemm.compute_frame
        simp only [hback, h0, h1, except_map_ok _ _ _ hlda, except_map_ok _ _ _ hldb,
          except_map_ok _ _ _ hldc, hhb, hha, except_map_ok _ _ _ hm, except_map_ok _ _ _ hn,
          except_map_ok _ _ _ hkl, h2, bind, Except.bind]
        simp [hk4', pure, Except.pure]

theorem except_bind_eq_ok {ε α β : Type} (x : Except ε α) (f : α → Except ε β) (b : β) :
    (x >>= f) = .ok b ↔ ∃ a, x = .ok a ∧ f a = .ok b := by
  cases x with
  | error e => simp [bind, Except.bind]
  | ok a => simp [bind, Except.bind]

theorem vector_index_eq_ok {α : Type} (v : List α) (i : Nat) (x : α)
    (h : vector_index v i = .ok x) : v[i]? = some x := by
  unfold vector_index at h
  split at h
  · rename_i y hy
    simp only [Except.ok.injEq] at h
    rw [hy, h]
  · simp at h

theorem vector_at_eq_ok {α : Type} (v : List α) (i : Nat) (x : α)
    (h : vector_at v i = .ok x) : v[i]? = some x := by
  unfold vector_at at h
  split at h
  · rename_i y hy
    simp only [Except.ok.injEq] at h
    rw [hy, h]
  · simp at h

theorem vector_back_eq_ok {α : Type} (v : List α) (x : α)
    (h : vector_back v = .ok x) : v.getLast? = some x := by
  unfold vector_back at h
  split at h
  · rename_i y hy
    simp only [Except.ok.injEq] at h
    rw [hy, h]
  · simp at h

/-- What `compute` has looked up and stored when it returns. -/
theorem compute_frame_inv (self : miopen_quant_gemm) (ctx : context) (output_shape : shape)
    (args : List argument) (f : compute_frame)
    (h : self.compute_frame ctx output_shape args = .ok f) :
    ∃ args0 args1 args2 hb ha,
      vector_back args = .ok f.arg_res ∧
      vector_index args 0 = .ok args0 ∧
      vector_index args 1 = .ok args1 ∧
      vector_index args 2 = .ok args2 ∧
      f.transa = args0.get_shape.transposed ∧
      f.transb = args1.get_shape.transposed ∧
      miopen_quant_gemm.handle_b ctx args f.transb = .ok hb ∧
      miopen_quant_gemm.handle_a ctx args f.transa hb.2.1 = .ok ha ∧
      f.arg_b = hb.1 ∧ f.arg_a = ha.1 ∧ f.pack_arg_num = ha.2.1 ∧
      f.calls = hb.2.2 ++ ha.2.2 ++ [f.kernel_call ctx args2] ∧
      to_rocblas_int <$> vector_index args0.get_shape.strides
        (if f.transa then size_sub output_shape.lens.length 1
          else size_sub output_shape.lens.length 2) = .ok f.lda ∧
      to_rocblas_int <$> vector_index args1.get_shape.strides
        (if f.transb then size_sub output_shape.lens.length 1
          else size_sub output_shape.lens.length 2) = .ok f.ldb ∧
      to_rocblas_int <$>
          vector_index f.arg_res.get_shape.strides (size_sub output_shape.lens.length 2) =
        .ok f.ldc ∧
      to_rocblas_int <$> vector_index output_shape.lens (size_sub output_shape.lens.length 2) =
        .ok f.m ∧
      to_rocblas_int <$> vector_index output_shape.lens (size_sub output_shape.lens.length 1) =
        .ok f.n ∧
      to_rocblas_int <$>
          vector_index args0.get_shape.lens (size_sub output_shape.lens.length 1) =
        .ok f.k ∧
      f.k.tmod 4 = 0 ∧
      f.is_3inputs = decide (size_sub args.length f.pack_arg_num = 4) ∧
      f.beta = (if f.is_3inputs then wrap_signed 8 self.op.beta else 0) ∧
      f.alpha_r = output_shape.type.as self.op.alpha ∧
      f.beta_r = output_shape.type.as f.beta ∧
      f.num_matrices = (output_shape.lens.reverse.drop 2).foldl size_mul 1 := by
  unfold miopen_quant_gemm.compute_frame at h
  simp only [except_bind_eq_ok] at h
  obtain ⟨arg_res, hres, args0, h0, args1, h1, lda, hlda, ldb, hldb, ldc, hldc, hb, hhb, ha, hha,
    m, hm, n, hn, k, hk, h⟩ := h
  split at h
  · simp [throw, throwThe, MonadExceptOf.throw, bind, Except.bind] at h
  · rename_i hk4
    simp only [except_bind_eq_ok] at h
    obtain ⟨_, _, args2, h2, hf⟩ := h
    simp only [pure, Except.pure, Except.ok.injEq] at hf
    subst hf
    have hk4 : k.tmod 4 = 0 := by simpa using hk4
    exact ⟨args0, args1, args2, hb, ha, hres, h0, h1, h2, rfl, rfl, hhb, hha, rfl, rfl, rfl, rfl,
      hlda, hldb, hldc, hm, hn, hk, hk4, rfl, rfl, rfl, rfl, rfl⟩

/-- What lines 88-95 yield when they succeed. -/
theorem handle_b_inv (ctx : context) (args : List argument) (transb : Bool) (args1 : argument)
    (hb : argument × Nat × List device_call)
    (h1 : vector_index args 1 = .ok args1)
    (h : miopen_quant_gemm.handle_b ctx args transb = .ok hb) :
    (transb = true → hb = (args1, 0, [])) ∧
      (transb = false → args[args.length - 2]? = some hb.1 ∧
        hb = (hb.1, 1, [device_call.pack_a ctx.get_stream.get hb.1 args1])) := by
  have h1' := vector_index_eq_ok _ _ _ h1
  have hlen : 2 ≤ args.length := by
    have := (List.getElem?_eq_some_iff.mp h1').1
    omega
  unfold miopen_quant_gemm.handle_b at h
  rw [vector_at_ok args 1 args1 h1', h1, size_sub_le _ _ hlen] at h
  cases transb with
  | true =>
    simp [bind, Except.bind, pure, Except.pure] at h
    simp [← h]
  | false =>
    simp only [except_bind_eq_ok] at h
    obtain ⟨_, _, h⟩ := h
    simp only [Bool.not_false, if_true, except_bind_eq_ok] at h
    obtain ⟨arg_b, hat, _, hsrc, h⟩ := h
    simp only [pure, Except.pure, Except.ok.injEq] at h hsrc
    subst hsrc
    subst h
    exact ⟨by simp, fun _ => ⟨vector_at_eq_ok _ _ _ hat, rfl⟩⟩

/-- What lines 99-105 yield when they succeed. -/
theorem handle_a_inv (ctx : context) (args : List argument) (transa : Bool) (p : Nat)
    (args0 : argument) (ha : argument × Nat × List device_call)
    (h0 : vector_index args 0 = .ok args0) (hlen : 2 ≤ args.length) (hp1 : p ≤ 1)
    (h : miopen_quant_gemm.handle_a ctx args transa p = .ok ha) :
    (transa = false → ha = (args0, p, [])) ∧
      (transa = true → p ≤ args.length - 2 ∧ args[args.length - 2 - p]? = some ha.1 ∧
        ha = (ha.1, p + 1, [device_call.pack_b ctx.get_stream.get ha.1 args0])) := by
  have h0' := vector_index_eq_ok _ _ _ h0
  unfold miopen_quant_gemm.handle_a at h
  rw [vector_at_ok args 0 args0 h0', h0, size_sub_le _ _ hlen] at h
  cases transa with
  | false =>
    simp [bind, Except.bind, pure, Except.pure] at h
    simp [← h]
  | true =>
    simp only [except_bind_eq_ok] at h
    obtain ⟨_, _, h⟩ := h
    simp only [if_true, except_bind_eq_ok] at h
    obtain ⟨arg_a, hat, _, hsrc, h⟩ := h
    simp only [pure, Except.pure, Except.ok.injEq] at h hsrc
    subst hsrc
    subst h
    have hat' := vector_at_eq_ok _ _ _ hat
    have hlt := (List.getElem?_eq_some_iff.mp hat').1
    have hp : p ≤ args.length - 2 := by
      by_contra hcon
      unfold size_sub at hlt
      rw [if_neg hcon] at hlt
      have hl2 : args.length - 2 = 0 := by omega
      have hp' : p = 1 := by omega
      rw [hl2, hp'] at hlt
      norm_num at hlt
      omega
    rw [size_sub_le _ _ hp] at hat'
    exact ⟨by simp, fun _ => ⟨hp, hat', rfl⟩⟩

/-- The operand buffers, the scratch slots consumed and the calls enqueued by
`compute`, in terms of the two transposed predicates. -/
theorem compute_frame_packs (self : miopen_quant_gemm) (ctx : context) (output_shape : shape)
    (args : List argument) (f : compute_frame)
    (h : self.compute_frame ctx output_shape args = .ok f) :
    ∃ args0 args1 args2,
      args[0]? = some args0 ∧ args[1]? = some args1 ∧ args[2]? = some args2 ∧
      args.getLast? = some f.arg_res ∧
      f.transa = args0.get_shape.transposed ∧
      f.transb = args1.get_shape.transposed ∧
      f.pack_arg_num = (if f.transb then 0 else 1) + (if f.transa then 1 else 0) ∧
      (f.transb = true → f.arg_b = args1) ∧
      (f.transb = false → args[args.length - 2]? = some f.arg_b) ∧
      (f.transa = false → f.arg_a = args0) ∧
      (f.transa = true →
        (if f.transb then 0 else 1) ≤ args.length - 2 ∧
        args[args.length - 2 - (if f.transb then 0 else 1)]? = some f.arg_a) ∧
      f.calls =
        (if f.transb then [] else [device_call.pack_a ctx.get_stream.get f.arg_b args1]) ++
          (if f.transa then [device_call.pack_b ctx.get_stream.get f.arg_a args0] else []) ++
          [f.kernel_call ctx args2] := by
  obtain ⟨args0, args1, args2, hb, ha, hres, h0, h1, h2, hta, htb, hhb, hha, hab, haa, hpn,
    hcalls, -⟩ := compute_frame_inv self ctx output_shape args f h
  have h1' := vector_index_eq_ok _ _ _ h1
  have hlen : 2 ≤ args.length := by
    have := (List.getElem?_eq_some_iff.mp h1').1
    omega
  have hbi := handle_b_inv ctx args f.transb args1 hb h1 hhb
  have hp1 : hb.2.1 ≤ 1 := by
    cases htb' : f.transb with
    | true => rw [hbi.1 htb']; simp
    | false => rw [(hbi.2 htb').2]
  have hai := handle_a_inv ctx args f.transa hb.2.1 args0 ha h0 hlen hp1 hha
  refine ⟨args0, args1, args2, vector_index_eq_ok _ _ _ h0, h1', vector_index_eq_ok _ _ _ h2,
    vector_back_eq_ok _ _ hres, hta, htb, ?_⟩
  rw [hcalls, hab, haa, hpn]
  cases htb' : f.transb <;> cases hta' : f.transa
  · have e1 := (hbi.2 htb').2
    have e2 := hai.1 hta'
    rw [e2, e1]
    simp [(hbi.2 htb').1]
  · have e1 := (hbi.2 htb').2
    obtain ⟨e3, e4, e2⟩ := hai.2 hta'
    have hp : hb.2.1 = 1 := by rw [e1]
    rw [hp] at e2 e3 e4
    rw [e2, e1]
    simp [(hbi.2 htb').1, e4, e3]
  · have e1 := hbi.1 htb'
    have e2 := hai.1 hta'
    rw [e2, e1]
    simp
  · have e1 := hbi.1 htb'
    obtain ⟨e3, e4, e2⟩ := hai.2 hta'
    have hp : hb.2.1 = 0 := by rw [e1]
    rw [hp] at e2 e3 e4
    rw [e2, e1]
    simp at e4
    simp [e4]

end gpu
end migraphx

/-! ## Shape resolution -/

namespace migraphx
namespace gpu

/-- When enough shapes are declared and none of the remaining ones is
broadcasted, `compute_shape` is the operator's rule on the list without its
last `removed_shapes` entries. -/
theorem compute_shape_on_remaining (self : miopen_quant_gemm) (a b : shape) (rest : List shape)
    (hlen : removed_shapes a b ≤ (a :: b :: rest).length)
    (hnb : ∀ s ∈ (a :: b :: rest).take ((a :: b :: rest).length - removed_shapes a b),
      s.broadcasted = false) :
    self.compute_shape (a :: b :: rest) =
      self.op.compute_shape
        ((a :: b :: rest).take ((a :: b :: rest).length - removed_shapes a b)) := by
  unfold miopen_quant_gemm.compute_shape
  rw [input_shapes_ok a b rest hlen]
  have hany : List.any ((a :: b :: rest).take ((a :: b :: rest).length - removed_shapes a b))
      shape.broadcasted = false := by
    rw [List.any_eq_false]
    intro s hs
    simp [hnb s hs]
  simp only [bind, Except.bind, check_shapes_not_broadcasted, hany]
  rfl

/-- C1, as stated, fails: for the declared list `[A, B, scratch, output]` with
the last axis of A broadcasted the list is long enough, `compute_shape` raises
the error of the broadcast check, while the operator's rule on the prefix
`[A, B]` returns the 2 by 3 shape. -/
theorem compute_shape_broadcasted_counterexample :
    removed_shapes sample_a_broadcasted sample_b + 2 ≤
        [sample_a_broadcasted, sample_b, sample_b, sample_out].length ∧
      standard_quant_gemm.compute_shape [sample_a_broadcasted, sample_b, sample_b, sample_out] =
        .error .check_shapes ∧
      standard_quant_gemm.op.compute_shape
          ([sample_a_broadcasted, sample_b, sample_b, sample_out].take
            ([sample_a_broadcasted, sample_b, sample_b, sample_out].length -
              removed_shapes sample_a_broadcasted sample_b)) = .ok sample_out :=
  ⟨by decide, rfl, rfl⟩

/-- C1 (amended): for every declared shape list with at least
1 + [B not transposed] + [A transposed] + 2 entries whose entries before the
last 1 + [B not transposed] + [A transposed] are not broadcasted,
`compute_shape` returns exactly what the operator's shape rule returns on that
prefix, in unchanged order; and two calls on the same list give the same
result. -/
theorem compute_shape_eq_rule_on_remaining (self : miopen_quant_gemm) (a b : shape)
    (rest : List shape)
    (hlen : removed_shapes a b + 2 ≤ (a :: b :: rest).length)
    (hnb : ∀ s ∈ (a :: b :: rest).take ((a :: b :: rest).length - removed_shapes a b),
      s.broadcasted = false) :
    self.compute_shape (a :: b :: rest) =
        self.op.compute_shape
          ((a :: b :: rest).take ((a :: b :: rest).length - removed_shapes a b)) ∧
      ∀ r1 r2, self.compute_shape (a :: b :: rest) = r1 →
        self.compute_shape (a :: b :: rest) = r2 → r1 = r2 :=
  ⟨compute_shape_on_remaining self a b rest (by omega) hnb, fun _ _ h1 h2 => h1.symm.trans h2⟩

/-- C1 (amended) at the declared list `[A, B, scratch, output]` of the 2 by 8
times 8 by 3 product. -/
theorem compute_shape_eq_rule_on_remaining_witness :
    removed_shapes sample_a sample_b + 2 ≤ [sample_a, sample_b, sample_b, sample_out].length ∧
      standard_quant_gemm.compute_shape [sample_a, sample_b, sample_b, sample_out] =
        standard_quant_gemm.op.compute_shape
          ([sample_a, sample_b, sample_b, sample_out].take
            ([sample_a, sample_b, sample_b, sample_out].length -
              removed_shapes sample_a sample_b)) :=
  ⟨by decide,
    (compute_shape_eq_rule_on_remaining standard_quant_gemm sample_a sample_b
      [sample_b, sample_out] (by decide) (by decide)).1⟩

/-- C2, as stated, fails: on the declared list `[A, B, scratch]`, which holds
the scratch placeholder B requires and not the output shape, with no operand
broadcasted, `compute_shape` fails (the rule is handed `[A]` only) although the
standard rule on `[A, B]` returns the 2 by 3 shape. -/
theorem compute_shape_without_output_counterexample :
    [sample_b].length = (if sample_b.transposed then 0 else 1) +
        (if sample_a.transposed then 1 else 0) ∧
      sample_a.broadcasted = false ∧ sample_b.broadcasted = false ∧
      standard_quant_gemm.compute_shape ([sample_a, sample_b] ++ [sample_b]) =
        .error .op_error ∧
      dot_compute_shape [sample_a, sample_b] = .ok sample_out :=
  ⟨by decide, by decide, by decide, rfl, rfl⟩

/-- C2 (amended): for every declared shape list of the form `[A, B]` or
`[A, B, C]` followed by exactly the scratch placeholders the operands require
(one iff B is not transposed, one iff A is transposed) and then by the output
shape as its last entry, with no operand broadcasted, `compute_shape` returns
the operator's shape rule applied to the logical operands: it ignores exactly
the scratch placeholders and the output shape. -/
theorem compute_shape_ignores_scratch (self : miopen_quant_gemm) (a b : shape)
    (c scratch : List shape) (out : shape)
    (hc : c.length ≤ 1)
    (hs : scratch.length =
      (if b.transposed then 0 else 1) + (if a.transposed then 1 else 0))
    (hnb : ∀ s ∈ a :: b :: c, s.broadcasted = false) :
    self.compute_shape (a :: b :: c ++ scratch ++ [out]) =
      self.op.compute_shape (a :: b :: c) := by
  have hrem : removed_shapes a b = scratch.length + 1 := by
    unfold removed_shapes
    omega
  have htake : (a :: b :: (c ++ scratch ++ [out])).take
      ((a :: b :: (c ++ scratch ++ [out])).length - removed_shapes a b) = a :: b :: c := by
    rw [hrem]
    have hl : (a :: b :: (c ++ scratch ++ [out])).length - (scratch.length + 1) =
        (a :: b :: c).length := by
      simp
      omega
    rw [hl]
    have happ : a :: b :: (c ++ scratch ++ [out]) = (a :: b :: c) ++ (scratch ++ [out]) := by
      simp
    rw [happ, List.take_left]
  have hmain := compute_shape_on_remaining self a b (c ++ scratch ++ [out])
    (by rw [hrem]; simp; omega) (by rw [htake]; exact hnb)
  rw [htake] at hmain
  simpa using hmain

/-- C2 (amended) at `[A, B]`, one scratch placeholder for B, and the output. -/
theorem compute_shape_ignores_scratch_witness :
    standard_quant_gemm.compute_shape ([sample_a, sample_b] ++ [sample_b] ++ [sample_out]) =
      standard_quant_gemm.op.compute_shape [sample_a, sample_b] :=
  compute_shape_ignores_scratch standard_quant_gemm sample_a sample_b [] [sample_b] sample_out
    (by decide) (by decide) (by decide)

end gpu
end migraphx

/-! ## Device dispatch -/

namespace migraphx
namespace gpu

theorem kernel_call_gemm_args (ctx : context) (args2 : argument) (f : compute_frame) :
    (f.kernel_call ctx args2).gemm_args = some (f.gemm ctx args2) := by
  unfold compute_frame.kernel_call
  split <;> rfl

theorem kernel_call_ne_pack_a (ctx : context) (args2 : argument) (f : compute_frame)
    (s : Nat) (r x : argument) : f.kernel_call ctx args2 ≠ device_call.pack_a s r x := by
  intro h
  have := kernel_call_gemm_args ctx args2 f
  rw [h] at this
  simp [device_call.gemm_args] at this

theorem kernel_call_ne_pack_b (ctx : context) (args2 : argument) (f : compute_frame)
    (s : Nat) (r x : argument) : f.kernel_call ctx args2 ≠ device_call.pack_b s r x := by
  intro h
  have := kernel_call_gemm_args ctx args2 f
  rw [h] at this
  simp [device_call.gemm_args] at this

theorem compute_eq_ok (self : miopen_quant_gemm) (ctx : context) (output_shape : shape)
    (args : List argument) (r : argument × List device_call) :
    self.compute ctx output_shape args = .ok r ↔
      ∃ f, self.compute_frame ctx output_shape args = .ok f ∧ r = (f.arg_res, f.calls) := by
  unfold miopen_quant_gemm.compute
  rw [except_bind_eq_ok]
  constructor
  · rintro ⟨f, hf, h⟩
    simp only [pure, Except.pure, Except.ok.injEq] at h
    exact ⟨f, hf, h.symm⟩
  · rintro ⟨f, hf, h⟩
    exact ⟨f, hf, by rw [h]; rfl⟩

theorem compute_total (self : miopen_quant_gemm) (ctx : context) (output_shape : shape)
    (args : List argument) (hpre : compute_pre output_shape args = true) :
    ∃ res calls, args.getLast? = some res ∧
      self.compute ctx output_shape args = .ok (res, calls) := by
  obtain ⟨f, hf⟩ := compute_frame_total self ctx output_shape args hpre
  obtain ⟨_, _, _, _, _, _, hlast, _⟩ := compute_frame_packs self ctx output_shape args f hf
  exact ⟨f.arg_res, f.calls, hlast,
    (compute_eq_ok self ctx output_shape args _).mpr ⟨f, hf, rfl⟩⟩

/-- C3: whenever `compute` returns, the argument it returns is the last one of
the list (same shape, same buffer reference), whatever the transposed
predicates, the presence of a bias and the batch size; and it does return, with
that argument, on every list of at least three arguments whose lookups are in
range (`compute_pre`). -/
theorem compute_returns_back (self : miopen_quant_gemm) (ctx : context) (output_shape : shape)
    (args : List argument) :
    (∀ r, self.compute ctx output_shape args = .ok r → args.getLast? = some r.1) ∧
      (compute_pre output_shape args = true →
        ∃ res calls, args.getLast? = some res ∧
          self.compute ctx output_shape args = .ok (res, calls)) := by
  constructor
  · intro r hr
    obtain ⟨f, hf, rfl⟩ := (compute_eq_ok self ctx output_shape args r).mp hr
    obtain ⟨_, _, _, _, _, _, hlast, _⟩ := compute_frame_packs self ctx output_shape args f hf
    exact hlast
  · exact compute_total self ctx output_shape args

/-- C3 at the arguments `[A, B, scratch, output]` of the 2 by 8 times 8 by 3
product. -/
theorem compute_returns_back_witness :
    compute_pre sample_out (sample_args [sample_a, sample_b, sample_b, sample_out]) = true ∧
      ∃ res calls,
        (sample_args [sample_a, sample_b, sample_b, sample_out]).getLast? = some res ∧
        standard_quant_gemm.compute sample_ctx sample_out
          (sample_args [sample_a, sample_b, sample_b, sample_out]) = .ok (res, calls) :=
  ⟨by decide,
    (compute_returns_back standard_quant_gemm sample_ctx sample_out
      (sample_args [sample_a, sample_b, sample_b, sample_out])).2 (by decide)⟩

theorem input_shapes_inv (a b : shape) (rest v : List shape)
    (h : miopen_quant_gemm.input_shapes (a :: b :: rest) = .ok v) :
    (a :: b :: rest).length = v.length + removed_shapes a b := by
  by_cases hlen : removed_shapes a b ≤ (a :: b :: rest).length
  · rw [input_shapes_ok a b rest hlen] at h
    simp only [Except.ok.injEq] at h
    rw [← h, List.length_take]
    omega
  · exfalso
    have hr : rest = [] := by
      unfold removed_shapes at hlen
      cases rest with
      | nil => rfl
      | cons c cs =>
        exfalso
        apply hlen
        simp only [List.length_cons]
        split <;> split <;> omega
    subst hr
    unfold removed_shapes at hlen
    unfold miopen_quant_gemm.input_shapes at h
    cases hb : b.transposed <;> cases ha : a.transposed <;>
      simp [hb, ha, vector_pop_back, vector_at, bind, Except.bind, pure, Except.pure] at h hlen

/-- C4: for every pair of operand shapes (hence for the four combinations of
their transposed predicates), whenever shape resolution gets through its
removals on a declared list and `compute` returns on an argument list with the
same A and B, the number of shapes `compute_shape` has removed beyond the
unconditional one equals the final `pack_arg_num` of `compute`, and both equal
[B not transposed] + [A transposed], which is at most 2. -/
theorem scratch_slots_agree (self : miopen_quant_gemm) (ctx : context) (output_shape : shape)
    (args : List argument) (a b : argument) (rest v : List shape) (f : compute_frame)
    (ha : args[0]? = some a) (hb : args[1]? = some b)
    (hv : miopen_quant_gemm.input_shapes (a.get_shape :: b.get_shape :: rest) = .ok v)
    (hf : self.compute_frame ctx output_shape args = .ok f) :
    (a.get_shape :: b.get_shape :: rest).length = v.length + 1 + f.pack_arg_num ∧
      f.pack_arg_num = (if b.get_shape.transposed then 0 else 1) +
        (if a.get_shape.transposed then 1 else 0) ∧
      f.pack_arg_num ≤ 2 := by
  obtain ⟨args0, args1, _, h0, h1, _, _, hta, htb, hpn, _⟩ :=
    compute_frame_packs self ctx output_shape args f hf
  rw [ha] at h0
  rw [hb] at h1
  simp only [Option.some.injEq] at h0 h1
  subst h0
  subst h1
  rw [hta, htb] at hpn
  have hinv := input_shapes_inv a.get_shape b.get_shape rest v hv
  unfold removed_shapes at hinv
  refine ⟨by rw [hinv, hpn]; omega, hpn, ?_⟩
  rw [hpn]
  split <;> split <;> omega


theorem mem_calls_cases (ctx : context) (args2 arg_b b arg_a a : argument) (f : compute_frame)
    (c : device_call)
    (hc : c ∈ (if f.transb then [] else [device_call.pack_a ctx.get_stream.get arg_b b]) ++
      (if f.transa then [device_call.pack_b ctx.get_stream.get arg_a a] else []) ++
      [f.kernel_call ctx args2]) :
    c = device_call.pack_a ctx.get_stream.get arg_b b ∨
      c = device_call.pack_b ctx.get_stream.get arg_a a ∨ c = f.kernel_call ctx args2 := by
  simp only [List.mem_append, List.mem_singleton] at hc
  rcases hc with (hc | hc) | hc
  · split at hc
    · simp at hc
    · simp only [List.mem_singleton] at hc
      exact Or.inl hc
  · split at hc
    · simp only [List.mem_singleton] at hc
      exact Or.inr (Or.inl hc)
    · simp at hc
  · exact Or.inr (Or.inr hc)

/-- C4 at the four combinations of the transposed predicates: neither operand
transposed, A only, B only, both. -/
theorem scratch_slots_agree_witness :
    (∃ f v,
      standard_quant_gemm.compute_frame sample_ctx sample_out
        (sample_args [sample_a, sample_b, sample_b, sample_out]) = .ok f ∧
      miopen_quant_gemm.input_shapes [sample_a, sample_b, sample_b, sample_out] = .ok v ∧
      [sample_a, sample_b, sample_b, sample_out].length = v.length + 1 + f.pack_arg_num ∧
      f.pack_arg_num = 1) ∧
    (∃ f v,
      standard_quant_gemm.compute_frame sample_ctx sample_out
        (sample_args [sample_a_transposed, sample_b, sample_a, sample_b, sample_out]) = .ok f ∧
      miopen_quant_gemm.input_shapes
        [sample_a_transposed, sample_b, sample_a, sample_b, sample_out] = .ok v ∧
      [sample_a_transposed, sample_b, sample_a, sample_b, sample_out].length =
        v.length + 1 + f.pack_arg_num ∧
      f.pack_arg_num = 2) ∧
    (∃ f v,
      standard_quant_gemm.compute_frame sample_ctx sample_out
        (sample_args [sample_a, sample_b_transposed, sample_out]) = .ok f ∧
      miopen_quant_gemm.input_shapes [sample_a, sample_b_transposed, sample_out] = .ok v ∧
      [sample_a, sample_b_transposed, sample_out].length = v.length + 1 + f.pack_arg_num ∧
      f.pack_arg_num = 0) ∧
    (∃ f v,
      standard_quant_gemm.compute_frame sample_ctx sample_out
        (sample_args [sample_a_transposed, sample_b_transposed, sample_a, sample_out]) = .ok f ∧
      miopen_quant_gemm.input_shapes
        [sample_a_transposed, sample_b_transposed, sample_a, sample_out] = .ok v ∧
      [sample_a_transposed, sample_b_transposed, sample_a, sample_out].length =
        v.length + 1 + f.pack_arg_num ∧
      f.pack_arg_num = 1) := by
  refine ⟨?_, ?_, ?_, ?_⟩
  · obtain ⟨f, hf⟩ := compute_frame_total standard_quant_gemm sample_ctx sample_out
      (sample_args [sample_a, sample_b, sample_b, sample_out]) (by decide)
    have h := scratch_slots_agree standard_quant_gemm sample_ctx sample_out
      (sample_args [sample_a, sample_b, sample_b, sample_out])
      { get_shape := sample_a, data := 0 } { get_shape := sample_b, data := 1 }
      [sample_b, sample_out] [sample_a, sample_b] f rfl rfl rfl hf
    exact ⟨f, _, hf, rfl, h.1, h.2.1⟩
  · obtain ⟨f, hf⟩ := compute_frame_total standard_quant_gemm sample_ctx sample_out
      (sample_args [sample_a_transposed, sample_b, sample_a, sample_b, sample_out]) (by decide)
    have h := scratch_slots_agree standard_quant_gemm sample_ctx sample_out
      (sample_args [sample_a_transposed, sample_b, sample_a, sample_b, sample_out])
      { get_shape := sample_a_transposed, data := 0 } { get_shape := sample_b, data := 1 }
      [sample_a, sample_b, sample_out] [sample_a_transposed, sample_b] f rfl rfl rfl hf
    exact ⟨f, _, hf, rfl, h.1, h.2.1⟩
  · obtain ⟨f, hf⟩ := compute_frame_total standard_quant_gemm sample_ctx sample_out
      (sample_args [sample_a, sample_b_transposed, sample_out]) (by decide)
    have h := scratch_slots_agree standard_quant_gemm sample_ctx sample_out
      (sample_args [sample_a, sample_b_transposed, sample_out])
      { get_shape := sample_a, data := 0 } { get_shape := sample_b_transposed, data := 1 }
      [sample_out] [sample_a, sample_b_transposed] f rfl rfl rfl hf
    exact ⟨f, _, hf, rfl, h.1, h.2.1⟩
  · obtain ⟨f, hf⟩ := compute_frame_total standard_quant_gemm sample_ctx sample_out
      (sample_args [sample_a_transposed, sample_b_transposed, sample_a, sample_out]) (by decide)
    have h := scratch_slots_agree standard_quant_gemm sample_ctx sample_out
      (sample_args [sample_a_transposed, sample_b_transposed, sample_a, sample_out])
      { get_shape := sample_a_transposed, data := 0 }
      { get_shape := sample_b_transposed, data := 1 }
      [sample_a, sample_out] [sample_a_transposed, sample_b_transposed] f rfl rfl rfl hf
    exact ⟨f, _, hf, rfl, h.1, h.2.1⟩

/-- C5: when `compute` returns on arguments starting with A and B, B is
repacked (a `pack_a` call) iff its shape is not transposed and A is repacked (a
`pack_b` call) iff its shape is transposed. Each repack reads the original
argument (`args[1]` for B, `args[0]` for A) and its result is the scratch slot
of the operand, the argument at index size - 2 for B and at index size - 2
minus the number of slots B took for A; the buffer used for an operand is this
scratch slot when the operand is repacked and the original argument otherwise,
and the kernel receives the buffer used for B first and the one used for A
second. A repack gives its result the values of the argument it reads and
leaves every other buffer as it was. -/
theorem compute_repacks (self : miopen_quant_gemm) (ctx : context) (output_shape : shape)
    (args : List argument) (a b : argument) (f : compute_frame)
    (ha : args[0]? = some a) (hb : args[1]? = some b)
    (hf : self.compute_frame ctx output_shape args = .ok f) :
    ((∃ s r x, device_call.pack_a s r x ∈ f.calls) ↔ b.get_shape.transposed = false) ∧
      ((∃ s r x, device_call.pack_b s r x ∈ f.calls) ↔ a.get_shape.transposed = true) ∧
      (∀ s r x, device_call.pack_a s r x ∈ f.calls →
        x = b ∧ r = f.arg_b ∧ args[args.length - 2]? = some r) ∧
      (∀ s r x, device_call.pack_b s r x ∈ f.calls →
        x = a ∧ r = f.arg_a ∧
          (if b.get_shape.transposed then 0 else 1) ≤ args.length - 2 ∧
          args[args.length - 2 - (if b.get_shape.transposed then 0 else 1)]? = some r) ∧
      (b.get_shape.transposed = true → f.arg_b = b) ∧
      (b.get_shape.transposed = false → args[args.length - 2]? = some f.arg_b) ∧
      (a.get_shape.transposed = false → f.arg_a = a) ∧
      (a.get_shape.transposed = true →
        (if b.get_shape.transposed then 0 else 1) ≤ args.length - 2 ∧
        args[args.length - 2 - (if b.get_shape.transposed then 0 else 1)]? = some f.arg_a) ∧
      (∃ c ∈ f.calls, c.is_gemm = true) ∧
      (∀ c ∈ f.calls, ∀ g, c.gemm_args = some g →
        g.a = f.arg_b.data ∧ g.b = f.arg_a.data) ∧
      (∀ c ∈ f.calls, ∀ s r x, c = device_call.pack_a s r x ∨ c = device_call.pack_b s r x →
        ∀ mem, ∃ mem', c.exec mem = some mem' ∧ mem' r.data = mem x.data ∧
          ∀ buf, buf ≠ r.data → mem' buf = mem buf) := by
  obtain ⟨args0, args1, args2, h0, h1, _, _, hta, htb, _, hbt, hbf, haf, hat, hcalls⟩ :=
    compute_frame_packs self ctx output_shape args f hf
  rw [ha] at h0
  rw [hb] at h1
  simp only [Option.some.injEq] at h0 h1
  subst h0
  subst h1
  have hk := kernel_call_gemm_args ctx args2 f
  have hka := kernel_call_ne_pack_a ctx args2 f
  have hkb := kernel_call_ne_pack_b ctx args2 f
  have hpa : ∀ s r x, device_call.pack_a s r x ∈ f.calls →
      f.transb = false ∧ x = b ∧ r = f.arg_b := by
    intro s r x hmem
    rw [hcalls] at hmem
    cases hb' : f.transb <;> cases ha' : f.transa <;>
      simp [hb', ha', Ne.symm (hka _ _ _)] at hmem <;> simp [hmem]
  have hpb : ∀ s r x, device_call.pack_b s r x ∈ f.calls →
      f.transa = true ∧ x = a ∧ r = f.arg_a := by
    intro s r x hmem
    rw [hcalls] at hmem
    cases hb' : f.transb <;> cases ha' : f.transa <;>
      simp [hb', ha', Ne.symm (hkb _ _ _)] at hmem <;> simp [hmem]
  rw [htb] at hat
  refine ⟨?_, ?_, ?_, ?_, ?_, ?_, ?_, ?_, ?_, ?_, ?_⟩
  · rw [hcalls, ← htb]
    cases f.transb <;> cases f.transa <;> simp [Ne.symm (hka _ _ _)]
  · rw [hcalls, ← hta]
    cases f.transb <;> cases f.transa <;> simp [Ne.symm (hkb _ _ _)]
  · intro s r x hmem
    obtain ⟨h1, h2, h3⟩ := hpa s r x hmem
    refine ⟨h2, h3, ?_⟩
    rw [h3]
    exact hbf h1
  · intro s r x hmem
    obtain ⟨h1, h2, h3⟩ := hpb s r x hmem
    refine ⟨h2, h3, (hat h1).1, ?_⟩
    rw [h3]
    exact (hat h1).2
  · intro h
    exact hbt (htb.trans h)
  · intro h
    exact hbf (htb.trans h)
  · intro h
    exact haf (hta.trans h)
  · intro h
    exact hat (hta.trans h)
  · exact ⟨f.kernel_call ctx args2, by rw [hcalls]; simp, by simp [device_call.is_gemm, hk]⟩
  · intro c hc g hg
    rw [hcalls] at hc
    have hck : c = f.kernel_call ctx args2 := by
      rcases mem_calls_cases ctx args2 f.arg_b b f.arg_a a f c hc with h | h | h
      · rw [h] at hg; simp [device_call.gemm_args] at hg
      · rw [h] at hg; simp [device_call.gemm_args] at hg
      · exact h
    rw [hck, hk] at hg
    simp only [Option.some.injEq] at hg
    rw [← hg]
    exact ⟨rfl, rfl⟩
  · intro c _ s r x hc mem
    refine ⟨pack r x mem, ?_, by simp [pack], ?_⟩
    · rcases hc with hc | hc <;> rw [hc] <;> rfl
    · intro buf hbuf
      simp [pack, hbuf]

/-- C5 at arguments for which both operands are repacked: B into the argument
at index 3 and A into the argument at index 2. -/
theorem compute_repacks_witness :
    ∃ f,
      standard_quant_gemm.compute_frame sample_ctx sample_out
        (sample_args [sample_a_transposed, sample_b, sample_a, sample_b, sample_out]) = .ok f ∧
      ((∃ s r x, device_call.pack_a s r x ∈ f.calls) ↔ sample_b.transposed = false) ∧
      ((∃ s r x, device_call.pack_b s r x ∈ f.calls) ↔ sample_a_transposed.transposed = true) ∧
      (∀ s r x, device_call.pack_a s r x ∈ f.calls →
        x = { get_shape := sample_b, data := 1 } ∧ r = f.arg_b ∧
          r = { get_shape := sample_b, data := 3 }) ∧
      (∀ s r x, device_call.pack_b s r x ∈ f.calls →
        x = { get_shape := sample_a_transposed, data := 0 } ∧ r = f.arg_a ∧
          r = { get_shape := sample_a, data := 2 }) := by
  obtain ⟨f, hf⟩ := compute_frame_total standard_quant_gemm sample_ctx sample_out
    (sample_args [sample_a_transposed, sample_b, sample_a, sample_b, sample_out]) (by decide)
  have h := compute_repacks standard_quant_gemm sample_ctx sample_out
    (sample_args [sample_a_transposed, sample_b, sample_a, sample_b, sample_out])
    { get_shape := sample_a_transposed, data := 0 } { get_shape := sample_b, data := 1 } f
    rfl rfl hf
  refine ⟨f, hf, h.1, h.2.1, ?_, ?_⟩
  · intro s r x hmem
    obtain ⟨h1, h2, h3⟩ := h.2.2.1 s r x hmem
    refine ⟨h1, h2, ?_⟩
    have h4 : (sample_args [sample_a_transposed, sample_b, sample_a, sample_b,
        sample_out])[3]? = some r := h3
    simpa [sample_args] using h4.symm
  · intro s r x hmem
    obtain ⟨h1, h2, _, h3⟩ := h.2.2.2.1 s r x hmem
    refine ⟨h1, h2, ?_⟩
    have h4 : (sample_args [sample_a_transposed, sample_b, sample_a, sample_b,
        sample_out])[2]? = some r := h3
    simpa [sample_args] using h4.symm

/-- C6, as stated, fails: with A transposed and B not transposed and five
arguments (argument `i` refers to buffer `i`), `compute` repacks B into the
argument at index 3 = size - 2 and A into the argument at index 2 = size - 3,
not the other way round. -/
theorem scratch_order_counterexample :
    sample_a_transposed.transposed = true ∧ sample_b.transposed = false ∧
      (standard_quant_gemm.compute sample_ctx sample_out
        (sample_args [sample_a_transposed, sample_b, sample_b, sample_a_transposed,
          sample_out])).map (fun r => r.2.take 2) =
        .ok [device_call.pack_a 7 { get_shape := sample_a_transposed, data := 3 }
              { get_shape := sample_b, data := 1 },
            device_call.pack_b 7 { get_shape := sample_b, data := 2 }
              { get_shape := sample_a_transposed, data := 0 }] :=
  ⟨by decide, by decide, rfl⟩

/-- C6 (amended): when `compute` returns, the buffer it repacks B into is the
argument at index size - 2; the buffer it repacks A into is the argument at
index size - 3 when B is repacked as well (so the two scratch buffers sit
immediately before the output in the order: scratch of A, scratch of B,
output), and at index size - 2 when only A is repacked. -/
theorem scratch_positions (self : miopen_quant_gemm) (ctx : context) (output_shape : shape)
    (args : List argument) (a b : argument) (f : compute_frame)
    (ha : args[0]? = some a) (hb : args[1]? = some b)
    (hf : self.compute_frame ctx output_shape args = .ok f) :
    (∀ s r x, device_call.pack_a s r x ∈ f.calls → args[args.length - 2]? = some r) ∧
      (∀ s r x, device_call.pack_b s r x ∈ f.calls → b.get_shape.transposed = false →
        3 ≤ args.length ∧ args[args.length - 3]? = some r) ∧
      (∀ s r x, device_call.pack_b s r x ∈ f.calls → b.get_shape.transposed = true →
        args[args.length - 2]? = some r) := by
  obtain ⟨args0, args1, args2, h0, h1, _, _, hta, htb, _, _, hbf, _, hat, hcalls⟩ :=
    compute_frame_packs self ctx output_shape args f hf
  rw [ha] at h0
  rw [hb] at h1
  simp only [Option.some.injEq] at h0 h1
  subst h0
  subst h1
  have hka := kernel_call_ne_pack_a ctx args2 f
  have hkb := kernel_call_ne_pack_b ctx args2 f
  have hpa : ∀ s r x, device_call.pack_a s r x ∈ f.calls → f.transb = false ∧ r = f.arg_b := by
    intro s r x hmem
    rw [hcalls] at hmem
    cases hb' : f.transb <;> cases ha' : f.transa <;>
      simp [hb', ha', Ne.symm (hka _ _ _)] at hmem <;> simp [hmem]
  have hpb : ∀ s r x, device_call.pack_b s r x ∈ f.calls → f.transa = true ∧ r = f.arg_a := by
    intro s r x hmem
    rw [hcalls] at hmem
    cases hb' : f.transb <;> cases ha' : f.transa <;>
      simp [hb', ha', Ne.symm (hkb _ _ _)] at hmem <;> simp [hmem]
  refine ⟨?_, ?_, ?_⟩
  · intro s r x hmem
    obtain ⟨hbf', hr⟩ := hpa s r x hmem
    rw [hr]
    exact hbf hbf'
  · intro s r x hmem hbt
    obtain ⟨haf', hr⟩ := hpb s r x hmem
    have h := hat haf'
    rw [htb, hbt] at h
    simp only [Bool.false_eq_true, if_false] at h
    rw [hr]
    refine ⟨by omega, ?_⟩
    have e : args.length - 3 = args.length - 2 - 1 := by omega
    rw [e]
    exact h.2
  · intro s r x hmem hbt
    obtain ⟨haf', hr⟩ := hpb s r x hmem
    have h := hat haf'
    rw [htb, hbt] at h
    simp only [if_true, Nat.sub_zero] at h
    rw [hr]
    exact h.2

/-- C6 (amended) at the five arguments of the counterexample: B is repacked
into the argument at index 3 and A into the argument at index 2. -/
theorem scratch_positions_witness :
    ∃ f,
      standard_quant_gemm.compute_frame sample_ctx sample_out
        (sample_args [sample_a_transposed, sample_b, sample_b, sample_a_transposed,
          sample_out]) = .ok f ∧
      (∀ s r x, device_call.pack_a s r x ∈ f.calls →
        (sample_args [sample_a_transposed, sample_b, sample_b, sample_a_transposed,
          sample_out])[5 - 2]? = some r) ∧
      (∀ s r x, device_call.pack_b s r x ∈ f.calls → sample_b.transposed = false →
        3 ≤ 5 ∧ (sample_args [sample_a_transposed, sample_b, sample_b, sample_a_transposed,
          sample_out])[5 - 3]? = some r) := by
  obtain ⟨f, hf⟩ := compute_frame_total standard_quant_gemm sample_ctx sample_out
    (sample_args [sample_a_transposed, sample_b, sample_b, sample_a_transposed, sample_out])
    (by decide)
  have h := scratch_positions standard_quant_gemm sample_ctx sample_out
    (sample_args [sample_a_transposed, sample_b, sample_b, sample_a_transposed, sample_out])
    { get_shape := sample_a_transposed, data := 0 } { get_shape := sample_b, data := 1 } f
    rfl rfl hf
  exact ⟨f, hf, h.1, h.2.1⟩


/-- C7: the calls `compute` enqueues are, in this order, the repack of B (a
`pack_a` call) when it occurs, the repack of A (a `pack_b` call) when it occurs,
and one GEMM launch, which is the only GEMM launch; the pack calls are issued
on the stream of the given context and the GEMM on the vendor handle of that
stream. -/
theorem compute_call_order (self : miopen_quant_gemm) (ctx : context) (output_shape : shape)
    (args : List argument) (r : argument × List device_call)
    (h : self.compute ctx output_shape args = .ok r) :
    ∃ pb pa g,
      r.2 = pb ++ pa ++ [g] ∧
      pb.length ≤ 1 ∧ (∀ c ∈ pb, ∃ res x, c = device_call.pack_a ctx.get_stream.get res x) ∧
      pa.length ≤ 1 ∧ (∀ c ∈ pa, ∃ res x, c = device_call.pack_b ctx.get_stream.get res x) ∧
      g.is_gemm = true ∧
      (r.2.filter device_call.is_gemm).length = 1 ∧
      ∀ c ∈ r.2, c.on_stream ctx.get_stream = true := by
  obtain ⟨f, hf, rfl⟩ := (compute_eq_ok self ctx output_shape args r).mp h
  obtain ⟨args0, args1, args2, _, _, _, _, _, _, _, _, _, _, _, hcalls⟩ :=
    compute_frame_packs self ctx output_shape args f hf
  have hk := kernel_call_gemm_args ctx args2 f
  have hg : (f.kernel_call ctx args2).is_gemm = true := by simp [device_call.is_gemm, hk]
  have hs : (f.kernel_call ctx args2).on_stream ctx.get_stream = true := by
    unfold compute_frame.kernel_call
    split <;> simp [device_call.on_stream, compute_frame.gemm]
  refine ⟨_, _, _, hcalls, ?_, ?_, ?_, ?_, hg, ?_, ?_⟩
  · split <;> simp
  · intro c hc
    split at hc
    · simp at hc
    · simp only [List.mem_singleton] at hc
      exact ⟨_, _, hc⟩
  · split <;> simp
  · intro c hc
    split at hc
    · simp only [List.mem_singleton] at hc
      exact ⟨_, _, hc⟩
    · simp at hc
  · simp only [hcalls]
    have hpa : ∀ s res x, (device_call.pack_a s res x).is_gemm = false := fun _ _ _ => rfl
    have hpb : ∀ s res x, (device_call.pack_b s res x).is_gemm = false := fun _ _ _ => rfl
    cases f.transb <;> cases f.transa <;> simp [List.filter_cons, hg, hpa, hpb]
  · intro c hc
    simp only [hcalls] at hc
    rcases mem_calls_cases ctx args2 f.arg_b args1 f.arg_a args0 f c hc with h | h | h
    · rw [h]; simp [device_call.on_stream]
    · rw [h]; simp [device_call.on_stream]
    · rw [h]; exact hs

/-- C7 at arguments for which both operands are repacked: the calls are
`pack_a`, `pack_b`, GEMM. -/
theorem compute_call_order_witness :
    ∃ r, standard_quant_gemm.compute sample_ctx sample_out
        (sample_args [sample_a_transposed, sample_b, sample_a, sample_b, sample_out]) = .ok r ∧
      ∃ pb pa g,
        r.2 = pb ++ pa ++ [g] ∧
        pb.length ≤ 1 ∧ (∀ c ∈ pb, ∃ res x, c = device_call.pack_a sample_ctx.get_stream.get res x) ∧
        pa.length ≤ 1 ∧ (∀ c ∈ pa, ∃ res x, c = device_call.pack_b sample_ctx.get_stream.get res x) ∧
        g.is_gemm = true ∧
        (r.2.filter device_call.is_gemm).length = 1 ∧
        ∀ c ∈ r.2, c.on_stream sample_ctx.get_stream = true := by
  obtain ⟨res, calls, _, hc⟩ := (compute_total standard_quant_gemm sample_ctx sample_out
    (sample_args [sample_a_transposed, sample_b, sample_a, sample_b, sample_out])) (by decide)
  exact ⟨(res, calls), hc, compute_call_order standard_quant_gemm sample_ctx sample_out
    (sample_args [sample_a_transposed, sample_b, sample_a, sample_b, sample_out]) (res, calls) hc⟩

theorem rank_of_lookup (lens : List Nat) (x : Nat)
    (h : vector_index lens (size_sub lens.length 2) = .ok x) :
    2 ≤ lens.length ∧ lens[lens.length - 2]? = some x := by
  have h' := vector_index_eq_ok _ _ _ h
  have hlt := (List.getElem?_eq_some_iff.mp h').1
  have h2 : 2 ≤ lens.length := by
    by_contra hcon
    unfold size_sub at hlt
    rw [if_neg hcon] at hlt
    norm_num at hlt
    omega
  rw [size_sub_le _ _ h2] at h'
  exact ⟨h2, h'⟩

/-- C8, as stated, fails: for the product of a matrix of 2147483650 rows and 8
columns with an 8 by 3 matrix, whose resolved output shape has the lengths
`{2147483650, 3}`, the kernel call of `compute` receives the dimension triple
(3, -2147483646, 8): its second entry is not the second-to-last length of the
output shape. -/
theorem kernel_operands_narrowing_counterexample :
    standard_quant_gemm.compute_shape [tall_a, sample_b_transposed, tall_out] = .ok tall_out ∧
      tall_out.lens[tall_out.lens.length - 2]? = some 2147483650 ∧
      (standard_quant_gemm.compute sample_ctx tall_out
        (sample_args [tall_a, sample_b_transposed, tall_out])).map
          (fun r => r.2.map (fun c => c.gemm_args.map (fun g => (g.m, g.n, g.k)))) =
        .ok [some (3, -2147483646, 8)] :=
  ⟨rfl, by decide, rfl⟩

/-- C8 (amended): in the kernel call of `compute`, single or strided-batched,
the first matrix operand is the buffer used for B with the transpose flag of B
and `ldb`, the second is the buffer used for A with the transpose flag of A and
`lda`, and the dimension triple is `(n, m, k)` where `m`, `n` and `k` are the
conversions to `rocblas_int` (32-bit signed) of the second-to-last and the last
length of the output shape and of the last length of A; each is the length
itself when the length is below 2^31. The output shape has at least the rank of
A, as a shape resolved from A and B has. -/
theorem kernel_operands (self : miopen_quant_gemm) (ctx : context) (output_shape : shape)
    (args : List argument) (a b : argument) (f : compute_frame)
    (ha : args[0]? = some a) (hb : args[1]? = some b)
    (hrank : a.get_shape.lens.length ≤ output_shape.lens.length)
    (hf : self.compute_frame ctx output_shape args = .ok f) :
    (∃ c ∈ f.calls, c.is_gemm = true) ∧
      ∀ c ∈ f.calls, ∀ g, c.gemm_args = some g →
        g.a = f.arg_b.data ∧ g.trans_a = to_rocblas_operation b.get_shape.transposed ∧
        g.lda = f.ldb ∧
        g.b = f.arg_a.data ∧ g.trans_b = to_rocblas_operation a.get_shape.transposed ∧
        g.ldb = f.lda ∧
        ∃ m n k : Nat,
          output_shape.lens[output_shape.lens.length - 2]? = some m ∧
          output_shape.lens.getLast? = some n ∧
          a.get_shape.lens.getLast? = some k ∧
          g.m = to_rocblas_int n ∧ g.n = to_rocblas_int m ∧ g.k = to_rocblas_int k ∧
          (n < 2 ^ 31 → g.m = n) ∧ (m < 2 ^ 31 → g.n = m) ∧ (k < 2 ^ 31 → g.k = k) := by
  obtain ⟨a0, _, _, _, _, _, h0i, _, _, _, _, _, _, _, _, _, _, _, _, _, hm, hn, hk, _⟩ :=
    compute_frame_inv self ctx output_shape args f hf
  obtain ⟨args0, args1, args2, h0, h1, _, _, hta, htb, _, _, _, _, _, hcalls⟩ :=
    compute_frame_packs self ctx output_shape args f hf
  have h0i' := vector_index_eq_ok _ _ _ h0i
  rw [ha] at h0 h0i'
  rw [hb] at h1
  simp only [Option.some.injEq] at h0 h1 h0i'
  subst h0
  subst h1
  subst h0i'
  obtain ⟨m, hm, hfm⟩ := except_map_eq_ok _ _ _ hm
  obtain ⟨n, hn, hfn⟩ := except_map_eq_ok _ _ _ hn
  obtain ⟨k, hk, hfk⟩ := except_map_eq_ok _ _ _ hk
  obtain ⟨hr2, hm'⟩ := rank_of_lookup output_shape.lens m hm
  rw [size_sub_le _ _ (by omega)] at hn hk
  have hn' := vector_index_eq_ok _ _ _ hn
  have hk' := vector_index_eq_ok _ _ _ hk
  have hrank' : output_shape.lens.length = a.get_shape.lens.length := by
    have := (List.getElem?_eq_some_iff.mp hk').1
    omega
  rw [hrank'] at hk'
  have hkmem := kernel_call_gemm_args ctx args2 f
  refine ⟨⟨f.kernel_call ctx args2, by rw [hcalls]; simp,
    by simp [device_call.is_gemm, hkmem]⟩, ?_⟩
  intro c hc g hg
  rw [hcalls] at hc
  have hck : c = f.kernel_call ctx args2 := by
    rcases mem_calls_cases ctx args2 f.arg_b b f.arg_a a f c hc with h | h | h
    · rw [h] at hg; simp [device_call.gemm_args] at hg
    · rw [h] at hg; simp [device_call.gemm_args] at hg
    · exact h
  rw [hck, hkmem] at hg
  simp only [Option.some.injEq] at hg
  rw [← hg]
  refine ⟨rfl, ?_, rfl, rfl, ?_, rfl, m, n, k, hm', ?_, ?_, hfn, hfm, hfk, ?_, ?_, ?_⟩
  · show to_rocblas_operation f.transb = _
    rw [htb]
  · show to_rocblas_operation f.transa = _
    rw [hta]
  · rw [List.getLast?_eq_getElem?]
    exact hn'
  · rw [List.getLast?_eq_getElem?]
    exact hk'
  · intro h
    exact hfn.trans (to_rocblas_int_of_lt n h)
  · intro h
    exact hfm.trans (to_rocblas_int_of_lt m h)
  · intro h
    exact hfk.trans (to_rocblas_int_of_lt k h)

/-- C8 (amended) at the arguments `[A, B, scratch, output]` of the 2 by 8 times
8 by 3 product: the kernel receives the triple (3, 2, 8). -/
theorem kernel_operands_witness :
    ∃ f,
      standard_quant_gemm.compute_frame sample_ctx sample_out
        (sample_args [sample_a, sample_b, sample_b, sample_out]) = .ok f ∧
      (∃ c ∈ f.calls, c.is_gemm = true) ∧
      ∀ c ∈ f.calls, ∀ g, c.gemm_args = some g →
        g.a = f.arg_b.data ∧ g.trans_a = to_rocblas_operation sample_b.transposed ∧
        g.lda = f.ldb ∧
        g.b = f.arg_a.data ∧ g.trans_b = to_rocblas_operation sample_a.transposed ∧
        g.ldb = f.lda ∧ g.m = 3 ∧ g.n = 2 ∧ g.k = 8 := by
  obtain ⟨f, hf⟩ := compute_frame_total standard_quant_gemm sample_ctx sample_out
    (sample_args [sample_a, sample_b, sample_b, sample_out]) (by decide)
  have h := kernel_operands standard_quant_gemm sample_ctx sample_out
    (sample_args [sample_a, sample_b, sample_b, sample_out])
    { get_shape := sample_a, data := 0 } { get_shape := sample_b, data := 1 } f
    rfl rfl (by decide) hf
  refine ⟨f, hf, h.1, ?_⟩
  intro c hc g hg
  obtain ⟨h1, h2, h3, h4, h5, h6, m, n, k, hm, hn, hk, _, _, _, hgm, hgn, hgk⟩ := h.2 c hc g hg
  have hm' : m = 2 := by
    have e : sample_out.lens[sample_out.lens.length - 2]? = some 2 := by decide
    rw [e] at hm
    exact (Option.some.inj hm).symm
  have hn' : n = 3 := by
    have e : sample_out.lens.getLast? = some 3 := by decide
    rw [e] at hn
    exact (Option.some.inj hn).symm
  have hk' : k = 8 := by
    have e : sample_a.lens.getLast? = some 8 := by decide
    change sample_a.lens.getLast? = some k at hk
    rw [e] at hk
    exact (Option.some.inj hk).symm
  subst hm'
  subst hn'
  subst hk'
  exact ⟨h1, h2, h3, h4, h5, h6, hgm (by norm_num), hgn (by norm_num), hgk (by norm_num)⟩

/-- The result of `compute` in terms of the values of its lookups. -/
theorem compute_of_lookups (self : miopen_quant_gemm) (ctx : context) (output_shape : shape)
    (args : List argument) (arg_res args0 args1 args2 : argument) (lda ldb ldc m n k : Nat)
    (hb ha : argument × Nat × List device_call)
    (hback : vector_back args = .ok arg_res)
    (h0 : vector_index args 0 = .ok args0) (h1 : vector_index args 1 = .ok args1)
    (h2 : vector_index args 2 = .ok args2)
    (hlda : vector_index args0.get_shape.strides
      (if args0.get_shape.transposed then size_sub output_shape.lens.length 1
        else size_sub output_shape.lens.length 2) = .ok lda)
    (hldb : vector_index args1.get_shape.strides
      (if args1.get_shape.transposed then size_sub output_shape.lens.length 1
        else size_sub output_shape.lens.length 2) = .ok ldb)
    (hldc : vector_index arg_res.get_shape.strides (size_sub output_shape.lens.length 2) =
      .ok ldc)
    (hhb : miopen_quant_gemm.handle_b ctx args args1.get_shape.transposed = .ok hb)
    (hha : miopen_quant_gemm.handle_a ctx args args0.get_shape.transposed hb.2.1 = .ok ha)
    (hm : vector_index output_shape.lens (size_sub output_shape.lens.length 2) = .ok m)
    (hn : vector_index output_shape.lens (size_sub output_shape.lens.length 1) = .ok n)
    (hk : vector_index args0.get_shape.lens (size_sub output_shape.lens.length 1) = .ok k)
    (hk4 : (to_rocblas_int k).tmod 4 = 0) :
    ∃ f : compute_frame,
      self.compute ctx output_shape args =
        .ok (arg_res, hb.2.2 ++ ha.2.2 ++ [f.kernel_call ctx args2]) ∧
      f.transa = args0.get_shape.transposed ∧ f.transb = args1.get_shape.transposed ∧
      f.lda = to_rocblas_int lda ∧ f.ldb = to_rocblas_int ldb ∧ f.ldc = to_rocblas_int ldc ∧
      f.arg_res = arg_res ∧ f.arg_b = hb.1 ∧ f.arg_a = ha.1 ∧
      f.m = to_rocblas_int m ∧ f.n = to_rocblas_int n ∧ f.k = to_rocblas_int k ∧
      f.alpha_r = output_shape.type.as self.op.alpha ∧
      f.beta_r = output_shape.type.as
        (if size_sub args.length ha.2.1 = 4 then wrap_signed 8 self.op.beta else 0) ∧
      f.num_matrices = (output_shape.lens.reverse.drop 2).foldl size_mul 1 := by
  have hex : ∃ f, self.compute_frame ctx output_shape args = .ok f := by
    unfold miopen_quant_gemm.compute_frame
    simp only [hback, h0, h1, except_map_ok _ _ _ hlda, except_map_ok _ _ _ hldb,
      except_map_ok _ _ _ hldc, hhb, hha, except_map_ok _ _ _ hm, except_map_ok _ _ _ hn,
      except_map_ok _ _ _ hk, h2, bind, Except.bind]
    simp [hk4, pure, Except.pure]
  obtain ⟨f, hf⟩ := hex
  obtain ⟨a0, a1, a2, hb', ha', hres', h0', h1', h2', hta, htb, hhb', hha', hab, haa, hpn,
    hcalls, hlda', hldb', hldc', hm', hn', hk', _, h3, hbeta, halpha, hbetar, hnum⟩ :=
    compute_frame_inv self ctx output_shape args f hf
  rw [h0] at h0'
  rw [h1] at h1'
  rw [h2] at h2'
  rw [hback] at hres'
  simp only [Except.ok.injEq] at h0' h1' h2' hres'
  subst h0'
  subst h1'
  subst h2'
  rw [htb, hhb] at hhb'
  simp only [Except.ok.injEq] at hhb'
  subst hhb'
  rw [hta, hha] at hha'
  simp only [Except.ok.injEq] at hha'
  subst hha'
  rw [hta, except_map_ok _ _ _ hlda] at hlda'
  rw [htb, except_map_ok _ _ _ hldb] at hldb'
  rw [← hres', except_map_ok _ _ _ hldc] at hldc'
  rw [except_map_ok _ _ _ hm] at hm'
  rw [except_map_ok _ _ _ hn] at hn'
  rw [except_map_ok _ _ _ hk] at hk'
  simp only [Except.ok.injEq] at hlda' hldb' hldc' hm' hn' hk'
  refine ⟨f, (compute_eq_ok self ctx output_shape args _).mpr ⟨f, hf, ?_⟩, hta, htb, hlda'.symm,
    hldb'.symm, hldc'.symm, hres'.symm, hab, haa, hm'.symm, hn'.symm, hk'.symm, halpha, ?_, hnum⟩
  · rw [hcalls, ← hres']
  · rw [hbetar, hbeta, h3, hpn]
    simp

theorem wrap_signed_32_one : wrap_signed 32 1 = 1 := by
  norm_num [wrap_signed]

theorem wrap_signed_32_zero : wrap_signed 32 0 = 0 := by
  norm_num [wrap_signed]

theorem wrap_signed_idem (w : Nat) (x : Int) :
    wrap_signed w (wrap_signed w x) = wrap_signed w x := by
  unfold wrap_signed
  rw [sub_add_cancel, Int.emod_emod_of_dvd _ (dvd_refl _)]

theorem wrap_signed_32_of_range (x : Int) (h1 : -2 ^ 31 ≤ x) (h2 : x < 2 ^ 31) :
    wrap_signed 32 x = x := by
  unfold wrap_signed
  norm_num at h1 h2 ⊢
  omega

theorem sum_map_const (k : Nat) (c : Int) :
    ((List.range k).map (fun _ => c)).sum = k * c := by
  induction k with
  | zero => simp
  | succ k ih =>
    rw [List.range_succ, List.map_append, List.sum_append, ih]
    simp
    ring

theorem tmod_four_of_mod (k : Nat) (h : k % 4 = 0) : (k : Int).tmod 4 = 0 := by
  apply Int.tmod_eq_zero_of_dvd
  omega

theorem index_div_mod (i j n : Nat) (hj : j < n) :
    (i * n + j) % n = j ∧ (i * n + j) / n = i := by
  have hn : 0 < n := by omega
  constructor
  · rw [Nat.add_comm, Nat.add_mul_mod_self_right, Nat.mod_eq_of_lt hj]
  · rw [Nat.add_comm, Nat.add_mul_div_right _ _ hn, Nat.div_eq_of_lt hj, Nat.zero_add]

theorem gemm_entry_full_mem (x : gemm_ex_args) (oa ob oc i j : Nat)
    (ha : x.a_type = .rocblas_datatype_i8_r) (hb : x.b_type = .rocblas_datatype_i8_r) :
    gemm_entry x full_mem oa ob oc i j =
      x.d_type.convert (x.compute_type.convert
        (x.alpha * (x.k.toNat * 16129) + x.beta * x.c_type.convert 127)) := by
  have h8 : wrap_signed 8 127 = 127 := by norm_num [wrap_signed]
  unfold gemm_entry
  rw [ha, hb]
  have e : (fun l : Nat =>
      rocblas_datatype.rocblas_datatype_i8_r.convert
          (op_entry (fun t => full_mem x.a (oa + t)) x.trans_a x.lda.toNat i l) *
        rocblas_datatype.rocblas_datatype_i8_r.convert
          (op_entry (fun t => full_mem x.b (ob + t)) x.trans_b x.ldb.toNat l j)) =
      fun _ => (16129 : Int) := by
    funext l
    cases x.trans_a <;> cases x.trans_b <;>
      simp [op_entry, full_mem, rocblas_datatype.convert, h8]
  rw [e, sum_map_const]
  rfl

theorem product_entry_full_mem (a b : argument) (k i j : Nat)
    (ha : a.get_shape.type = .int8_type) (hb : b.get_shape.type = .int8_type) :
    matrix_product_entry full_mem a b k i j = k * 16129 := by
  have h8 : wrap_signed 8 127 = 127 := by norm_num [wrap_signed]
  unfold matrix_product_entry
  have e : (fun l : Nat => a.element full_mem [i, l] * b.element full_mem [l, j]) =
      fun _ => (16129 : Int) := by
    funext l
    simp [argument.element, ha, hb, type_t.as, full_mem, h8]
  rw [e, sum_map_const]

/-- C9, as stated, fails: for m = n = 1 and k = 133200 (a multiple of 4), with
every entry of A and of B equal to 127, the exact product has the one entry
133200 * 127 * 127 = 2148382800, which the 32-bit output cannot hold: the
kernel call of `compute`, which accumulates in 32 bits, leaves -2146584496
there. -/
theorem transposed_b_product_overflow_counterexample :
    ∃ g mem',
      standard_quant_gemm.compute sample_ctx (unit_out 2).get_shape
          [long_a, long_b_transposed, unit_out 2] =
        .ok (unit_out 2, [device_call.generic_rocblas_gemm_ex g]) ∧
      run [device_call.generic_rocblas_gemm_ex g] full_mem = some mem' ∧
      (unit_out 2).element mem' [0, 0] = -2146584496 ∧
      matrix_product_entry full_mem long_a long_b_transposed 133200 0 0 = 2148382800 := by
  refine ⟨{ handle := 9
            trans_a := .rocblas_operation_transpose
            trans_b := .rocblas_operation_none
            m := 1, n := 1, k := 133200, alpha := 1
            a := 1, a_type := .rocblas_datatype_i8_r, lda := 133200
            b := 0, b_type := .rocblas_datatype_i8_r, ldb := 133200
            beta := 0
            c := 2, c_type := .rocblas_datatype_i32_r, ldc := 1
            d := 2, d_type := .rocblas_datatype_i32_r, ldd := 1
            compute_type := .rocblas_datatype_i32_r },
    fun buf idx => if buf = 2 ∧ idx = 0 then -2146584496 else full_mem buf idx, rfl, ?_, ?_, ?_⟩
  · simp only [run, List.foldl, Option.bind, device_call.exec, rocblas_gemm_ex]
    rw [if_neg (by decide)]
    congr 1
    funext buf idx
    rw [gemm_entry_full_mem _ _ _ _ _ _ rfl rfl]
    by_cases h : buf = 2 ∧ idx = 0
    · rw [if_pos h, if_pos]
      · norm_num [rocblas_datatype.convert, wrap_signed]
      · obtain ⟨h1, h2⟩ := h
        subst h1
        subst h2
        decide
    · rw [if_neg h, if_neg]
      intro hc
      apply h
      refine ⟨hc.1, ?_⟩
      have h3 := hc.2.2.2
      simp at h3
      have h4 := hc.2.2.1
      simp at h4
      omega
  · simp [argument.element, unit_out, matrix_argument, shape.standard_of, calculate_strides,
      shape.index, type_t.as]
    norm_num [wrap_signed]
  · rw [product_entry_full_mem _ _ _ _ _ rfl rfl]
    norm_num

theorem gemm_ex_some (x : gemm_ex_args) (mem : memory) (h : ¬ (x.d = x.a ∨ x.d = x.b)) :
    rocblas_gemm_ex x mem = some (fun buf idx =>
      if buf = x.d ∧ gemm_valid x ∧ idx % x.ldd.toNat < x.m.toNat ∧
          idx / x.ldd.toNat < x.n.toNat then
        gemm_entry x mem 0 0 0 (idx % x.ldd.toNat) (idx / x.ldd.toNat)
      else mem buf idx) := by
  unfold rocblas_gemm_ex
  rw [if_neg h]

theorem element_of_wrapped (m n obuf : Nat) (mem' : memory) (i j : Nat) (v : Int)
    (h : mem' obuf (i * n + j) = wrap_signed 32 (wrap_signed 32 v)) :
    (matrix_argument .int32_type m n obuf).element mem' [i, j] = wrap_signed 32 v ∧
      (-2 ^ 31 ≤ v ∧ v < 2 ^ 31 →
        (matrix_argument .int32_type m n obuf).element mem' [i, j] = v) := by
  have e : (matrix_argument .int32_type m n obuf).element mem' [i, j] = wrap_signed 32 v := by
    simp only [argument.element, matrix_argument, shape.standard_of, calculate_strides,
      shape.index, type_t.as]
    simp only [List.zip_cons_cons, List.zip_nil_right, List.map_cons, List.map_nil,
      List.sum_cons, List.sum_nil, List.prod_cons, List.prod_nil, mul_one, add_zero]
    rw [h, wrap_signed_idem, wrap_signed_idem]
  refine ⟨e, ?_⟩
  intro hr
  rw [e]
  exact wrap_signed_32_of_range _ hr.1 hr.2

/-- C9 (amended): for all m, n and k below 2^31 with k at least 1 and a
multiple of 4, a standard row-major 8-bit m by k matrix A, a B declared
transposed (lengths `{k, n}`, strides `{1, k}`), no bias, alpha = 1 and a
standard m by n 32-bit output in a buffer other than those of A and B:
`compute` returns the output argument, performs no repacking and issues a
single GEMM call, and that call, read as the column-major reference, leaves in
the output, in row-major order, the product of A and the logical B reduced to
32 bits: the exact integer product wherever that lies in the 32-bit range. -/
theorem compute_transposed_b_product (self : miopen_quant_gemm) (ctx : context)
    (m n k abuf bbuf obuf : Nat) (mem : memory)
    (hk : 1 ≤ k) (hk4 : k % 4 = 0) (halpha : self.op.alpha = 1)
    (hm31 : m < 2 ^ 31) (hn31 : n < 2 ^ 31) (hk31 : k < 2 ^ 31)
    (hoa : obuf ≠ abuf) (hob : obuf ≠ bbuf) :
    (transposed_matrix_argument .int8_type k n bbuf).get_shape.transposed = true ∧
    ∃ g mem',
      self.compute ctx (shape.standard_of .int32_type [m, n])
        [matrix_argument .int8_type m k abuf, transposed_matrix_argument .int8_type k n bbuf,
          matrix_argument .int32_type m n obuf] =
        .ok (matrix_argument .int32_type m n obuf, [device_call.generic_rocblas_gemm_ex g]) ∧
      run [device_call.generic_rocblas_gemm_ex g] mem = some mem' ∧
      ∀ i j, i < m → j < n →
        (matrix_argument .int32_type m n obuf).element mem' [i, j] =
          wrap_signed 32 (matrix_product_entry mem (matrix_argument .int8_type m k abuf)
            (transposed_matrix_argument .int8_type k n bbuf) k i j) ∧
        (-2 ^ 31 ≤ matrix_product_entry mem (matrix_argument .int8_type m k abuf)
              (transposed_matrix_argument .int8_type k n bbuf) k i j ∧
            matrix_product_entry mem (matrix_argument .int8_type m k abuf)
              (transposed_matrix_argument .int8_type k n bbuf) k i j < 2 ^ 31 →
          (matrix_argument .int32_type m n obuf).element mem' [i, j] =
            matrix_product_entry mem (matrix_argument .int8_type m k abuf)
              (transposed_matrix_argument .int8_type k n bbuf) k i j) := by
  have hk1 : 1 < k := by omega
  have hk0 : ¬ k < 1 := by omega
  refine ⟨by simp [transposed_matrix_argument, shape.transposed, hk1],
    { handle := ctx.get_stream.get_rocblas
      trans_a := .rocblas_operation_transpose
      trans_b := .rocblas_operation_none
      m := n, n := m, k := k, alpha := 1
      a := bbuf, a_type := .rocblas_datatype_i8_r, lda := k
      b := abuf, b_type := .rocblas_datatype_i8_r, ldb := k
      beta := 0
      c := obuf, c_type := .rocblas_datatype_i32_r, ldc := n
      d := obuf, d_type := .rocblas_datatype_i32_r, ldd := n
      compute_type := .rocblas_datatype_i32_r }, _, ?hc,
    gemm_ex_some _ mem (by simp [hoa, hob]), ?hv⟩
  case hc =>
    have ta : (matrix_argument .int8_type m k abuf).get_shape.transposed = false := by
      simp [matrix_argument, shape.standard_of, calculate_strides, shape.transposed, hk0]
    have tb : (transposed_matrix_argument .int8_type k n bbuf).get_shape.transposed = true := by
      simp [transposed_matrix_argument, shape.transposed, hk1]
    obtain ⟨f, hf, e_ta, e_tb, e_lda, e_ldb, e_ldc, e_res, e_b, e_a, e_m, e_n, e_k, e_al, e_be,
      e_num⟩ := compute_of_lookups self ctx (shape.standard_of .int32_type [m, n])
        [matrix_argument .int8_type m k abuf, transposed_matrix_argument .int8_type k n bbuf,
          matrix_argument .int32_type m n obuf]
        (matrix_argument .int32_type m n obuf) (matrix_argument .int8_type m k abuf)
        (transposed_matrix_argument .int8_type k n bbuf) (matrix_argument .int32_type m n obuf)
        k k n m n k (transposed_matrix_argument .int8_type k n bbuf, 0, [])
        (matrix_argument .int8_type m k abuf, 0, []) rfl rfl rfl rfl
        (by rw [ta]; simp [vector_index, matrix_argument, shape.standard_of, calculate_strides,
          size_sub])
        (by rw [tb]; simp [vector_index, transposed_matrix_argument, shape.standard_of,
          size_sub])
        (by simp [vector_index, matrix_argument, shape.standard_of, calculate_strides,
          size_sub])
        (by rw [tb]; rfl) (by rw [ta]; rfl)
        (by simp [vector_index, shape.standard_of, size_sub])
        (by simp [vector_index, shape.standard_of, size_sub])
        (by simp [vector_index, matrix_argument, shape.standard_of, size_sub])
        (to_rocblas_int_tmod k hk4)
    rw [hf]
    have hnum : f.num_matrices = 1 := by
      rw [e_num]
      simp [shape.standard_of]
    have hkc : f.kernel_call ctx (matrix_argument .int32_type m n obuf) =
        device_call.generic_rocblas_gemm_ex
          { handle := ctx.get_stream.get_rocblas
            trans_a := .rocblas_operation_transpose
            trans_b := .rocblas_operation_none
            m := n, n := m, k := k, alpha := 1
            a := bbuf, a_type := .rocblas_datatype_i8_r, lda := k
            b := abuf, b_type := .rocblas_datatype_i8_r, ldb := k
            beta := 0
            c := obuf, c_type := .rocblas_datatype_i32_r, ldc := n
            d := obuf, d_type := .rocblas_datatype_i32_r, ldd := n
            compute_type := .rocblas_datatype_i32_r } := by
      unfold compute_frame.kernel_call
      rw [if_pos hnum]
      unfold compute_frame.gemm
      rw [e_ta, e_tb, e_lda, e_ldb, e_ldc, e_res, e_b, e_a, e_m, e_n, e_k, e_al, e_be, ta, tb,
        halpha, to_rocblas_int_of_lt m hm31, to_rocblas_int_of_lt n hn31,
        to_rocblas_int_of_lt k hk31]
      simp [matrix_argument, transposed_matrix_argument, shape.standard_of, size_sub, type_t.as,
        wrap_signed_32_one, wrap_signed_32_zero, to_rocblas_operation]
    rw [hkc]
    rfl
  case hv =>
    intro i j hi hj
    apply element_of_wrapped
    obtain ⟨hmod, hdiv⟩ := index_div_mod i j n hj
    simp [hmod, hdiv, hi, hj, gemm_entry, op_entry, matrix_product_entry, gemm_valid,
      rocblas_datatype.convert, argument.element, matrix_argument,
      transposed_matrix_argument, shape.standard_of, calculate_strides, shape.index, type_t.as]
    congr 3
    apply List.map_congr_left
    intro l _
    rw [Int.mul_comm, Nat.add_comm l (i * k)]

/-- C9 (amended) at m = 2, n = 3, k = 8, the operands in buffers 0 and 1 and
the output in buffer 2: entry (1, 2) of the output. -/
theorem compute_transposed_b_product_witness :
    (1 ≤ 8 ∧ 8 % 4 = 0 ∧ standard_quant_gemm.op.alpha = 1 ∧ 2 < 2 ^ 31 ∧ 3 < 2 ^ 31 ∧
      8 < 2 ^ 31 ∧ 2 ≠ 0 ∧ 2 ≠ 1) ∧
    ∃ g mem',
      standard_quant_gemm.compute sample_ctx (shape.standard_of .int32_type [2, 3])
        [matrix_argument .int8_type 2 8 0, transposed_matrix_argument .int8_type 8 3 1,
          matrix_argument .int32_type 2 3 2] =
        .ok (matrix_argument .int32_type 2 3 2, [device_call.generic_rocblas_gemm_ex g]) ∧
      run [device_call.generic_rocblas_gemm_ex g] sample_mem = some mem' ∧
      (matrix_argument .int32_type 2 3 2).element mem' [1, 2] =
        wrap_signed 32 (matrix_product_entry sample_mem (matrix_argument .int8_type 2 8 0)
          (transposed_matrix_argument .int8_type 8 3 1) 8 1 2) := by
  obtain ⟨_, g, mem', hc, hr, hv⟩ := compute_transposed_b_product standard_quant_gemm
    sample_ctx 2 3 8 0 1 2 sample_mem (by decide) (by decide) rfl (by norm_num) (by norm_num)
    (by norm_num) (by decide) (by decide)
  exact ⟨⟨by decide, by decide, rfl, by norm_num, by norm_num, by norm_num, by decide,
    by decide⟩, g, mem', hc, hr, (hv 1 2 (by decide) (by decide)).1⟩

theorem pack_full_mem (r a : argument) : pack r a full_mem = full_mem := by
  funext buf
  unfold pack
  split <;> rfl

/-- C10, as stated, fails: for m = n = 1 and k = 133200 (a multiple of 4), with
every entry of A and of B equal to 127, the resolved output shape is the 1 by 1
32-bit shape and the exact product has the one entry 133200 * 127 * 127 =
2148382800, which the 32-bit output cannot hold: the calls of `compute`, the
repack of B and the kernel call that accumulates in 32 bits, leave
-2146584496 there. -/
theorem standard_product_overflow_counterexample :
    standard_quant_gemm.compute_shape
        [long_a.get_shape, long_b.get_shape, long_b.get_shape, (unit_out 3).get_shape] =
      .ok (unit_out 3).get_shape ∧
    ∃ g mem',
      standard_quant_gemm.compute sample_ctx (unit_out 3).get_shape
          [long_a, long_b, { get_shape := long_b.get_shape, data := 2 }, unit_out 3] =
        .ok (unit_out 3,
          [device_call.pack_a 7 { get_shape := long_b.get_shape, data := 2 } long_b,
            device_call.generic_rocblas_gemm_ex g]) ∧
      run [device_call.pack_a 7 { get_shape := long_b.get_shape, data := 2 } long_b,
          device_call.generic_rocblas_gemm_ex g] full_mem = some mem' ∧
      (unit_out 3).element mem' [0, 0] = -2146584496 ∧
      matrix_product_entry full_mem long_a long_b 133200 0 0 = 2148382800 := by
  refine ⟨rfl, { handle := 9
                 trans_a := .rocblas_operation_none
                 trans_b := .rocblas_operation_none
                 m := 1, n := 1, k := 133200, alpha := 1
                 a := 2, a_type := .rocblas_datatype_i8_r, lda := 1
                 b := 0, b_type := .rocblas_datatype_i8_r, ldb := 133200
                 beta := 0
                 c := 2, c_type := .rocblas_datatype_i32_r, ldc := 1
                 d := 3, d_type := .rocblas_datatype_i32_r, ldd := 1
                 compute_type := .rocblas_datatype_i32_r },
    fun buf idx => if buf = 3 ∧ idx = 0 then -2146584496 else full_mem buf idx, rfl, ?_, ?_, ?_⟩
  · simp only [run, List.foldl, Option.bind, device_call.exec, rocblas_gemm_ex, pack_full_mem]
    rw [if_neg (by decide)]
    congr 1
    funext buf idx
    rw [gemm_entry_full_mem _ _ _ _ _ _ rfl rfl]
    by_cases h : buf = 3 ∧ idx = 0
    · rw [if_pos h, if_pos]
      · norm_num [rocblas_datatype.convert, wrap_signed]
      · obtain ⟨h1, h2⟩ := h
        subst h1
        subst h2
        decide
    · rw [if_neg h, if_neg]
      intro hc
      apply h
      refine ⟨hc.1, ?_⟩
      have h3 := hc.2.2.2
      simp at h3
      have h4 := hc.2.2.1
      simp at h4
      omega
  · simp [argument.element, unit_out, matrix_argument, shape.standard_of, calculate_strides,
      shape.index, type_t.as]
    norm_num [wrap_signed]
  · rw [product_entry_full_mem _ _ _ _ _ rfl rfl]
    norm_num

/-- C10 (amended): for all m, n and k below 2^31 with n and k at least 1 and k
a multiple of 4, standard row-major 8-bit matrices A (m by k) and B (k by n),
no bias, alpha = 1, the standard shape rule, a scratch buffer for B other than
the buffer of A and an output buffer other than the scratch buffer and the
buffer of A: the resolved output shape is the standard m by n 32-bit
shape, `compute` returns the output argument after enqueuing the repack of B
into the scratch buffer and a single GEMM call, and these calls, read as the
reference pack and column-major GEMM, leave in the output the product of A and
B reduced to 32 bits: the exact integer product wherever that lies in the
32-bit range. -/
theorem compute_standard_product (self : miopen_quant_gemm) (ctx : context)
    (m n k abuf bbuf sbuf obuf : Nat) (scratch last : shape) (mem : memory)
    (hn : 1 ≤ n) (hk : 1 ≤ k) (hk4 : k % 4 = 0) (halpha : self.op.alpha = 1)
    (hrule : self.op.compute_shape = dot_compute_shape)
    (hm31 : m < 2 ^ 31) (hn31 : n < 2 ^ 31) (hk31 : k < 2 ^ 31)
    (hs : sbuf ≠ abuf) (hos : obuf ≠ sbuf) (hoa : obuf ≠ abuf) :
    self.compute_shape
        [(matrix_argument .int8_type m k abuf).get_shape,
          (matrix_argument .int8_type k n bbuf).get_shape, scratch, last] =
      .ok (shape.standard_of .int32_type [m, n]) ∧
    ∃ g mem',
      self.compute ctx (shape.standard_of .int32_type [m, n])
        [matrix_argument .int8_type m k abuf, matrix_argument .int8_type k n bbuf,
          { get_shape := scratch, data := sbuf }, matrix_argument .int32_type m n obuf] =
        .ok (matrix_argument .int32_type m n obuf,
          [device_call.pack_a ctx.get_stream.get { get_shape := scratch, data := sbuf }
              (matrix_argument .int8_type k n bbuf),
            device_call.generic_rocblas_gemm_ex g]) ∧
      run [device_call.pack_a ctx.get_stream.get { get_shape := scratch, data := sbuf }
            (matrix_argument .int8_type k n bbuf),
          device_call.generic_rocblas_gemm_ex g] mem = some mem' ∧
      ∀ i j, i < m → j < n →
        (matrix_argument .int32_type m n obuf).element mem' [i, j] =
          wrap_signed 32 (matrix_product_entry mem (matrix_argument .int8_type m k abuf)
            (matrix_argument .int8_type k n bbuf) k i j) ∧
        (-2 ^ 31 ≤ matrix_product_entry mem (matrix_argument .int8_type m k abuf)
              (matrix_argument .int8_type k n bbuf) k i j ∧
            matrix_product_entry mem (matrix_argument .int8_type m k abuf)
              (matrix_argument .int8_type k n bbuf) k i j < 2 ^ 31 →
          (matrix_argument .int32_type m n obuf).element mem' [i, j] =
            matrix_product_entry mem (matrix_argument .int8_type m k abuf)
              (matrix_argument .int8_type k n bbuf) k i j) := by
  have hk0 : ¬ k < 1 := by omega
  have hn0 : ¬ n < 1 := by omega
  have hk' : k ≠ 0 := by omega
  have hn' : n ≠ 0 := by omega
  refine ⟨?_,
    { handle := ctx.get_stream.get_rocblas
      trans_a := .rocblas_operation_none
      trans_b := .rocblas_operation_none
      m := n, n := m, k := k, alpha := 1
      a := sbuf, a_type := .rocblas_datatype_i8_r, lda := n
      b := abuf, b_type := .rocblas_datatype_i8_r, ldb := k
      beta := 0
      c := sbuf, c_type := .rocblas_datatype_i32_r, ldc := n
      d := obuf, d_type := .rocblas_datatype_i32_r, ldd := n
      compute_type := .rocblas_datatype_i32_r }, _, ?hc,
    gemm_ex_some _ _ (by simp [hos, hoa]), ?hv⟩
  · simp [miopen_quant_gemm.compute_shape, miopen_quant_gemm.input_shapes, vector_pop_back,
      vector_at, matrix_argument, shape.standard_of, calculate_strides, shape.transposed,
      check_shapes_not_broadcasted, shape.broadcasted, hrule, dot_compute_shape,
      broadcast_unify, bind, Except.bind, pure, Except.pure, hk0, hn0, hk', hn']
  case hc =>
    have ta : (matrix_argument .int8_type m k abuf).get_shape.transposed = false := by
      simp [matrix_argument, shape.standard_of, calculate_strides, shape.transposed, hk0]
    have tb : (matrix_argument .int8_type k n bbuf).get_shape.transposed = false := by
      simp [matrix_argument, shape.standard_of, calculate_strides, shape.transposed, hn0]
    obtain ⟨f, hf, e_ta, e_tb, e_lda, e_ldb, e_ldc, e_res, e_b, e_a, e_m, e_n, e_k, e_al, e_be,
      e_num⟩ := compute_of_lookups self ctx (shape.standard_of .int32_type [m, n])
        [matrix_argument .int8_type m k abuf, matrix_argument .int8_type k n bbuf,
          { get_shape := scratch, data := sbuf }, matrix_argument .int32_type m n obuf]
        (matrix_argument .int32_type m n obuf) (matrix_argument .int8_type m k abuf)
        (matrix_argument .int8_type k n bbuf) { get_shape := scratch, data := sbuf }
        k n n m n k
        ({ get_shape := scratch, data := sbuf }, 1,
          [device_call.pack_a ctx.get_stream.get { get_shape := scratch, data := sbuf }
            (matrix_argument .int8_type k n bbuf)])
        (matrix_argument .int8_type m k abuf, 1, []) rfl rfl rfl rfl
        (by rw [ta]; simp [vector_index, matrix_argument, shape.standard_of, calculate_strides,
          size_sub])
        (by rw [tb]; simp [vector_index, matrix_argument, shape.standard_of, calculate_strides,
          size_sub])
        (by simp [vector_index, matrix_argument, shape.standard_of, calculate_strides,
          size_sub])
        (by rw [tb]; rfl) (by rw [ta]; rfl)
        (by simp [vector_index, shape.standard_of, size_sub])
        (by simp [vector_index, shape.standard_of, size_sub])
        (by simp [vector_index, matrix_argument, shape.standard_of, size_sub])
        (to_rocblas_int_tmod k hk4)
    rw [hf]
    have hnum : f.num_matrices = 1 := by
      rw [e_num]
      simp [shape.standard_of]
    have hkc : f.kernel_call ctx { get_shape := scratch, data := sbuf } =
        device_call.generic_rocblas_gemm_ex
          { handle := ctx.get_stream.get_rocblas
            trans_a := .rocblas_operation_none
            trans_b := .rocblas_operation_none
            m := n, n := m, k := k, alpha := 1
            a := sbuf, a_type := .rocblas_datatype_i8_r, lda := n
            b := abuf, b_type := .rocblas_datatype_i8_r, ldb := k
            beta := 0
            c := sbuf, c_type := .rocblas_datatype_i32_r, ldc := n
            d := obuf, d_type := .rocblas_datatype_i32_r, ldd := n
            compute_type := .rocblas_datatype_i32_r } := by
      unfold compute_frame.kernel_call
      rw [if_pos hnum]
      unfold compute_frame.gemm
      rw [e_ta, e_tb, e_lda, e_ldb, e_ldc, e_res, e_b, e_a, e_m, e_n, e_k, e_al, e_be, ta, tb,
        halpha, to_rocblas_int_of_lt m hm31, to_rocblas_int_of_lt n hn31,
        to_rocblas_int_of_lt k hk31]
      simp [matrix_argument, shape.standard_of, size_sub, type_t.as,
        wrap_signed_32_one, wrap_signed_32_zero, to_rocblas_operation]
    rw [hkc]
    rfl
  case hv =>
    intro i j hi hj
    apply element_of_wrapped
    obtain ⟨hmod, hdiv⟩ := index_div_mod i j n hj
    simp [hmod, hdiv, hi, hj, gemm_entry, op_entry, matrix_product_entry, gemm_valid,
      rocblas_datatype.convert, argument.element, matrix_argument, pack,
      shape.standard_of, calculate_strides, shape.index, type_t.as, Ne.symm hs]
    congr 3
    apply List.map_congr_left
    intro l _
    rw [Int.mul_comm, Nat.add_comm l (i * k), Nat.add_comm j (l * n)]

/-- C10 (amended) at m = 2, k = 8, n = 3, with A, B, the scratch buffer and the
output in buffers 0 to 3: the resolved shape, and entry (1, 2) of the output. -/
theorem compute_standard_product_witness :
    (1 ≤ 3 ∧ 1 ≤ 8 ∧ 8 % 4 = 0 ∧ standard_quant_gemm.op.alpha = 1 ∧
      standard_quant_gemm.op.compute_shape = dot_compute_shape ∧
      2 < 2 ^ 31 ∧ 3 < 2 ^ 31 ∧ 8 < 2 ^ 31 ∧ 2 ≠ 0 ∧ 3 ≠ 2 ∧ 3 ≠ 0) ∧
    standard_quant_gemm.compute_shape
        [(matrix_argument .int8_type 2 8 0).get_shape,
          (matrix_argument .int8_type 8 3 1).get_shape, sample_b, sample_out] =
      .ok (shape.standard_of .int32_type [2, 3]) ∧
    ∃ g mem',
      standard_quant_gemm.compute sample_ctx (shape.standard_of .int32_type [2, 3])
        [matrix_argument .int8_type 2 8 0, matrix_argument .int8_type 8 3 1,
          { get_shape := sample_b, data := 2 }, matrix_argument .int32_type 2 3 3] =
        .ok (matrix_argument .int32_type 2 3 3,
          [device_call.pack_a sample_ctx.get_stream.get { get_shape := sample_b, data := 2 }
              (matrix_argument .int8_type 8 3 1),
            device_call.generic_rocblas_gemm_ex g]) ∧
      run [device_call.pack_a sample_ctx.get_stream.get { get_shape := sample_b, data := 2 }
            (matrix_argument .int8_type 8 3 1),
          device_call.generic_rocblas_gemm_ex g] sample_mem = some mem' ∧
      (matrix_argument .int32_type 2 3 3).element mem' [1, 2] =
        wrap_signed 32 (matrix_product_entry sample_mem (matrix_argument .int8_type 2 8 0)
          (matrix_argument .int8_type 8 3 1) 8 1 2) := by
  obtain ⟨hshape, g, mem', hc, hr, hv⟩ := compute_standard_product standard_quant_gemm
    sample_ctx 2 3 8 0 1 2 3 sample_b sample_out sample_mem (by decide) (by decide) (by decide)
    rfl rfl (by norm_num) (by norm_num) (by norm_num) (by decide) (by decide) (by decide)
  exact ⟨⟨by decide, by decide, by decide, rfl, rfl, by norm_num, by norm_num, by norm_num,
    by decide, by decide, by decide⟩, hshape, g, mem', hc, hr,
    (hv 1 2 (by decide) (by decide)).1⟩

end gpu
end migraphx

/-! ## Kernel variant, strides and multipliers -/

namespace migraphx
namespace gpu

theorem foldl_size_mul (l : List Nat) (a : Nat) :
    l.foldl size_mul (a % 2 ^ 64) = (a * l.prod) % 2 ^ 64 := by
  induction l generalizing a with
  | nil => simp
  | cons x xs ih =>
    rw [List.foldl_cons, List.prod_cons]
    have e : size_mul (a % 2 ^ 64) x = (a * x) % 2 ^ 64 := by
      unfold size_mul
      rw [Nat.mod_mul_mod]
    rw [e, ih, Nat.mul_assoc]

theorem batch_product_eq (lens : List Nat) :
    (lens.reverse.drop 2).foldl size_mul 1 = (lens.take (lens.length - 2)).prod % 2 ^ 64 := by
  have h := foldl_size_mul (lens.reverse.drop 2) 1
  rw [Nat.one_mul, List.drop_reverse, List.prod_reverse] at h
  rw [← h, List.drop_reverse]
  rfl

/-- A GEMM launch among the calls of `compute` is its kernel call. -/
theorem gemm_call_eq_kernel_call (self : miopen_quant_gemm) (ctx : context)
    (output_shape : shape) (args : List argument) (f : compute_frame)
    (hf : self.compute_frame ctx output_shape args = .ok f) :
    ∃ args2, args[2]? = some args2 ∧ f.kernel_call ctx args2 ∈ f.calls ∧
      f.calls.getLast? = some (f.kernel_call ctx args2) ∧
      ∀ c ∈ f.calls, c.is_gemm = true → c = f.kernel_call ctx args2 := by
  obtain ⟨args0, args1, args2, _, _, h2, _, _, _, _, _, _, _, _, hcalls⟩ :=
    compute_frame_packs self ctx output_shape args f hf
  refine ⟨args2, h2, by rw [hcalls]; simp, by rw [hcalls]; simp, ?_⟩
  intro c hc hg
  rw [hcalls] at hc
  rcases mem_calls_cases ctx args2 f.arg_b args1 f.arg_a args0 f c hc with h | h | h
  · rw [h] at hg; simp [device_call.is_gemm, device_call.gemm_args] at hg
  · rw [h] at hg; simp [device_call.is_gemm, device_call.gemm_args] at hg
  · exact h

/-- C11, as stated, fails: for the resolved output shape of lengths
`{3, 12297829382473034411, 2, 3}` the product of the lengths except the
trailing two is 2^65 + 1, not 1, yet `compute` invokes the single-matrix
variant: the product is formed in `std::size_t`, where it is 1. -/
theorem batch_count_wrap_counterexample :
    standard_quant_gemm.compute_shape
        [wrapping_batch_a, wrapping_batch_b, wrapping_batch_b, wrapping_batch_out] =
      .ok wrapping_batch_out ∧
    (wrapping_batch_out.lens.take (wrapping_batch_out.lens.length - 2)).prod =
      36893488147419103233 ∧
    ∃ r p g,
      standard_quant_gemm.compute sample_ctx wrapping_batch_out
          (sample_args [wrapping_batch_a, wrapping_batch_b, wrapping_batch_b,
            wrapping_batch_out]) = .ok (r, [p, device_call.generic_rocblas_gemm_ex g]) :=
  ⟨rfl, by decide, _, _, _, rfl⟩

/-- C11 (amended): when `compute` returns, the output shape has rank at least
2, the number of matrices it multiplies is the product of the output lengths
except the trailing two reduced modulo 2^64 (so the product itself when that is
below 2^64, and 1 for rank 2), and the GEMM launch it enqueues is the
single-matrix variant iff that number is 1 and otherwise the strided-batched
variant, whose batch count is that number converted to `rocblas_int` (so the
product itself when that is below 2^31). -/
theorem num_matrices_and_variant (self : miopen_quant_gemm) (ctx : context)
    (output_shape : shape) (args : List argument) (f : compute_frame)
    (hf : self.compute_frame ctx output_shape args = .ok f) :
    2 ≤ output_shape.lens.length ∧
      f.num_matrices = (output_shape.lens.take (output_shape.lens.length - 2)).prod % 2 ^ 64 ∧
      ((output_shape.lens.take (output_shape.lens.length - 2)).prod < 2 ^ 64 →
        f.num_matrices = (output_shape.lens.take (output_shape.lens.length - 2)).prod) ∧
      (output_shape.lens.length = 2 → f.num_matrices = 1) ∧
      (∃ c ∈ f.calls, c.is_gemm = true) ∧
      ∀ c ∈ f.calls, c.is_gemm = true →
        ((∃ g, c = device_call.generic_rocblas_gemm_ex g) ↔ f.num_matrices = 1) ∧
        (f.num_matrices ≠ 1 →
          ∃ x, c = device_call.generic_rocblas_batched_gemm_ex x ∧
            x.batch_count = to_rocblas_int f.num_matrices ∧
            ((output_shape.lens.take (output_shape.lens.length - 2)).prod < 2 ^ 31 →
              x.batch_count =
                (output_shape.lens.take (output_shape.lens.length - 2)).prod)) := by
  obtain ⟨_, _, _, _, _, _, _, _, _, _, _, _, _, _, _, _, _, _, _, _, hm, _, _, _, _, _, _, _,
    hnum⟩ := compute_frame_inv self ctx output_shape args f hf
  rw [batch_product_eq] at hnum
  obtain ⟨args2, _, hmem, _, hall⟩ := gemm_call_eq_kernel_call self ctx output_shape args f hf
  obtain ⟨m, hm, _⟩ := except_map_eq_ok _ _ _ hm
  obtain ⟨hr2, _⟩ := rank_of_lookup output_shape.lens m hm
  have hk := kernel_call_gemm_args ctx args2 f
  have hlt : (output_shape.lens.take (output_shape.lens.length - 2)).prod < 2 ^ 64 →
      f.num_matrices = (output_shape.lens.take (output_shape.lens.length - 2)).prod := by
    intro h
    rw [hnum, Nat.mod_eq_of_lt h]
  refine ⟨hr2, hnum, hlt, ?_, ⟨_, hmem, by simp [device_call.is_gemm, hk]⟩, ?_⟩
  · intro h2
    rw [hnum, h2]
    simp
  · intro c hc hg
    rw [hall c hc hg]
    unfold compute_frame.kernel_call
    by_cases h1 : f.num_matrices = 1
    · simp [h1]
    · simp only [h1, if_false, reduceCtorEq, exists_false, false_iff, not_false_eq_true,
        true_and, forall_true_left, not_true_eq_false, iff_self]
      intro _
      refine ⟨_, rfl, rfl, ?_⟩
      intro h31
      rw [hlt (by omega)]
      exact to_rocblas_int_of_lt _ h31

/-- C11 (amended) on a batch of four 2 by 3 outputs: the launch is the
strided-batched one, with batch count 4. -/
theorem num_matrices_and_variant_witness :
    ∃ f,
      standard_quant_gemm.compute_frame sample_ctx (shape.standard_of .int32_type [4, 2, 3])
        [batched_argument .int8_type 4 2 8 0, batched_argument .int8_type 4 8 3 1,
          batched_argument .int8_type 4 8 3 2, batched_argument .int32_type 4 2 3 3] = .ok f ∧
      f.num_matrices = 4 ∧
      ∀ c ∈ f.calls, c.is_gemm = true →
        ∃ x, c = device_call.generic_rocblas_batched_gemm_ex x ∧ x.batch_count = 4 := by
  obtain ⟨f, hf⟩ := compute_frame_total standard_quant_gemm sample_ctx
    (shape.standard_of .int32_type [4, 2, 3])
    [batched_argument .int8_type 4 2 8 0, batched_argument .int8_type 4 8 3 1,
      batched_argument .int8_type 4 8 3 2, batched_argument .int32_type 4 2 3 3] (by decide)
  have h := num_matrices_and_variant standard_quant_gemm sample_ctx
    (shape.standard_of .int32_type [4, 2, 3])
    [batched_argument .int8_type 4 2 8 0, batched_argument .int8_type 4 8 3 1,
      batched_argument .int8_type 4 8 3 2, batched_argument .int32_type 4 2 3 3] f hf
  have h4 : f.num_matrices = 4 := h.2.1
  refine ⟨f, hf, h4, ?_⟩
  intro c hc hg
  obtain ⟨x, hx, _, hb⟩ := (h.2.2.2.2.2 c hc hg).2 (by rw [h4]; decide)
  exact ⟨x, hx, hb (by decide)⟩

theorem batched_fold_untouched (g : gemm_ex_args) (fa fb fc fd : Nat → Nat) (mem : memory)
    (buf idx : Nat) (n : Nat)
    (h : ∀ b, b < n → ¬ gemm_covers g (fd b) buf idx) :
    (List.range n).foldl
        (fun acc b => gemm_write g mem (fa b) (fb b) (fc b) (fd b) acc) mem buf idx =
      mem buf idx := by
  induction n with
  | zero => simp
  | succ n ih =>
    rw [List.range_succ, List.foldl_append]
    simp only [List.foldl_cons, List.foldl_nil]
    unfold gemm_write
    rw [if_neg (h n (by omega))]
    exact ih (fun b hb => h b (by omega))

theorem batched_fold_entry (g : gemm_ex_args) (fa fb fc fd : Nat → Nat) (mem : memory)
    (buf idx b : Nat) (n : Nat) (hb : b < n)
    (hcov : gemm_covers g (fd b) buf idx)
    (h : ∀ c, c < n → c ≠ b → ¬ gemm_covers g (fd c) buf idx) :
    (List.range n).foldl
        (fun acc b => gemm_write g mem (fa b) (fb b) (fc b) (fd b) acc) mem buf idx =
      gemm_entry g mem (fa b) (fb b) (fc b)
        ((idx - fd b) % g.ldd.toNat) ((idx - fd b) / g.ldd.toNat) := by
  induction n with
  | zero => omega
  | succ n ih =>
    rw [List.range_succ, List.foldl_append]
    simp only [List.foldl_cons, List.foldl_nil]
    by_cases hbn : b = n
    · subst hbn
      unfold gemm_write
      rw [if_pos hcov]
    · have hlt : b < n := by omega
      unfold gemm_write
      rw [if_neg (h n (by omega) (fun e => hbn e.symm))]
      exact ih hlt (fun c hc hne => h c (by omega) hne)

/-- The strided-batched reference at an element covered by exactly one matrix
of the batch. -/
theorem batched_entry_of_covers (x : gemm_strided_batched_ex_args) (mem : memory)
    (buf idx b : Nat) (hal : ¬ (x.gemm.d = x.gemm.a ∨ x.gemm.d = x.gemm.b))
    (hb : b < x.batch_count.toNat)
    (hcov : gemm_covers x.gemm ((b : Int) * x.stride_d).toNat buf idx)
    (h : ∀ c : Nat, c < x.batch_count.toNat → c ≠ b →
      ¬ gemm_covers x.gemm ((c : Int) * x.stride_d).toNat buf idx) :
    ∃ mem', rocblas_gemm_strided_batched_ex x mem = some mem' ∧
      mem' buf idx =
        gemm_entry x.gemm mem ((b : Int) * x.stride_a).toNat ((b : Int) * x.stride_b).toNat
          ((b : Int) * x.stride_c).toNat
          ((idx - ((b : Int) * x.stride_d).toNat) % x.gemm.ldd.toNat)
          ((idx - ((b : Int) * x.stride_d).toNat) / x.gemm.ldd.toNat) := by
  unfold rocblas_gemm_strided_batched_ex
  rw [if_neg hal]
  exact ⟨_, rfl, batched_fold_entry x.gemm (fun b => ((b : Int) * x.stride_a).toNat)
    (fun b => ((b : Int) * x.stride_b).toNat) (fun b => ((b : Int) * x.stride_c).toNat)
    (fun b => ((b : Int) * x.stride_d).toNat) mem buf idx b x.batch_count.toNat hb hcov h⟩

/-- With a batch count of one the strided-batched reference is the plain
GEMM. -/
theorem batched_one_eq_gemm (x : gemm_strided_batched_ex_args) (mem : memory)
    (h : x.batch_count = 1) :
    rocblas_gemm_strided_batched_ex x mem = rocblas_gemm_ex x.gemm mem := by
  unfold rocblas_gemm_strided_batched_ex rocblas_gemm_ex
  rw [h]
  by_cases hal : x.gemm.d = x.gemm.a ∨ x.gemm.d = x.gemm.b
  · rw [if_pos hal, if_pos hal]
  · rw [if_neg hal, if_neg hal]
    congr 1
    funext buf idx
    simp [List.range_succ, gemm_write, gemm_covers]

theorem batched_index (t : type_t) (bs m n buf b i j : Nat) :
    (batched_argument t bs m n buf).get_shape.index [b, i, j] = b * (m * n) + (i * n + j) := by
  simp [batched_argument, shape.standard_of, calculate_strides, shape.index]

theorem dense_covers_iff (g : gemm_ex_args) (m n b c i j obuf : Nat)
    (hd : g.d = obuf) (hgm : g.m = n) (hgn : g.n = m) (hld : g.ldd = n) (hv : gemm_valid g)
    (hi : i < m) (hj : j < n) :
    gemm_covers g (c * (m * n)) obuf (b * (m * n) + (i * n + j)) ↔ c = b := by
  have hlt : i * n + j < m * n := by
    calc i * n + j < i * n + n := by omega
      _ = (i + 1) * n := by ring
      _ ≤ m * n := Nat.mul_le_mul_right n (by omega)
  have hn : 0 < n := by omega
  unfold gemm_covers
  rw [hd, hgm, hgn, hld]
  simp only [Int.toNat_ofNat]
  constructor
  · rintro ⟨_, _, hle, _, hdiv⟩
    rw [Nat.div_lt_iff_lt_mul hn] at hdiv
    by_contra hne
    rcases Nat.lt_or_gt_of_ne hne with hcb | hcb
    · have h1 : (c + 1) * (m * n) ≤ b * (m * n) := Nat.mul_le_mul_right _ (by omega)
      have h2 : (c + 1) * (m * n) = c * (m * n) + m * n := by ring
      omega
    · have h1 : (b + 1) * (m * n) ≤ c * (m * n) := Nat.mul_le_mul_right _ (by omega)
      have h2 : (b + 1) * (m * n) = b * (m * n) + m * n := by ring
      omega
  · intro hcb
    subst hcb
    have hsub : c * (m * n) + (i * n + j) - c * (m * n) = i * n + j := by omega
    obtain ⟨hmod, hdiv⟩ := index_div_mod i j n hj
    rw [hsub, hmod, hdiv]
    exact ⟨trivial, hv, by omega, hj, hi⟩

theorem int_mul_of_range (a b : Int) (h1 : -2 ^ 31 ≤ a * b) (h2 : a * b < 2 ^ 31) :
    int_mul a b = a * b :=
  wrap_signed_32_of_range _ h1 h2

theorem int_mul_cast (a b : Nat) (h : a * b < 2 ^ 31) : int_mul a b = ((a * b : Nat) : Int) := by
  rw [Nat.cast_mul]
  apply int_mul_of_range
  · have : (0 : Int) ≤ (a : Int) * (b : Int) := by positivity
    omega
  · exact_mod_cast h

theorem toNat_cast_mul (b s : Nat) : ((b : Int) * ((s : Nat) : Int)).toNat = b * s := by
  rw [← Nat.cast_mul, Int.toNat_ofNat]

theorem batched_element_of_wrapped (bs m n obuf : Nat) (mem' : memory) (b i j : Nat) (v : Int)
    (h : mem' obuf (b * (m * n) + (i * n + j)) = wrap_signed 32 (wrap_signed 32 v)) :
    (batched_argument .int32_type bs m n obuf).element mem' [b, i, j] = wrap_signed 32 v ∧
      (-2 ^ 31 ≤ v ∧ v < 2 ^ 31 →
        (batched_argument .int32_type bs m n obuf).element mem' [b, i, j] = v) := by
  have e : (batched_argument .int32_type bs m n obuf).element mem' [b, i, j] =
      wrap_signed 32 v := by
    unfold argument.element
    rw [batched_index]
    show wrap_signed 32 (mem' obuf _) = _
    rw [h, wrap_signed_idem, wrap_signed_idem]
  refine ⟨e, ?_⟩
  intro hr
  rw [e]
  exact wrap_signed_32_of_range _ hr.1 hr.2

/-- C12, as stated, fails: for a batch of two products of a 1 by 65536 matrix
with a 65536 by 65536 matrix, `compute` issues the strided-batched call with
k = 65536 and n = 65536 (the kernel's first dimension) and passes 0 as the
stride of operand B, not k * n = 4294967296: the product is formed in the
32-bit `rocblas_int`. -/
theorem batched_stride_overflow_counterexample :
    standard_quant_gemm.compute_shape [wide_a, wide_b, wide_b, wide_out] = .ok wide_out ∧
    ∃ r p x,
      standard_quant_gemm.compute sample_ctx wide_out
          (sample_args [wide_a, wide_b, wide_b, wide_out]) =
        .ok (r, [p, device_call.generic_rocblas_batched_gemm_ex x]) ∧
      x.gemm.k = 65536 ∧ x.gemm.m = 65536 ∧ x.stride_a = 0 :=
  ⟨rfl, _, _, _, rfl, rfl, rfl, rfl⟩

/-- C12 (amended): in every strided-batched call of `compute` the stride
passed with operand A (the second matrix of the kernel) is `m * k`, with
operand B (the first matrix) `k * n`, and with the accumulator input and the
output `m * n`, each product formed in `rocblas_int` (32-bit signed), so the
product itself when that lies in the 32-bit range. For densely packed standard
batches of `bs` matrices (`bs` other than 1 and below 2^31), A of m by k and B
of k by n with `m * k`, `k * n` and `m * n` below 2^31, no bias, alpha = 1, a
scratch buffer for B other than the buffer of A and an output buffer other
than the scratch buffer and the buffer of A, `compute` enqueues the
repack of B and one strided-batched call with the strides `m * k`, `k * n`,
`m * n` and batch count `bs`, and the calls, read as the reference pack and
column-major batched GEMM, leave in matrix `b` of the output the product of
matrix `b` of A and matrix `b` of B reduced to 32 bits, as in the single-matrix
case: the exact integer product wherever that lies in the 32-bit range. -/
theorem batched_strides (self : miopen_quant_gemm) (ctx : context)
    (bs m n k abuf bbuf sbuf obuf : Nat) (scratch : shape) (mem : memory)
    (hbs : bs ≠ 1) (hn : 1 ≤ n) (hk : 1 ≤ k) (hk4 : k % 4 = 0) (halpha : self.op.alpha = 1)
    (hbs31 : bs < 2 ^ 31) (hmk : m * k < 2 ^ 31) (hkn : k * n < 2 ^ 31)
    (hmn : m * n < 2 ^ 31)
    (hs : sbuf ≠ abuf) (hos : obuf ≠ sbuf) (hoa : obuf ≠ abuf) :
    (∀ output_shape args f x, self.compute_frame ctx output_shape args = .ok f →
      device_call.generic_rocblas_batched_gemm_ex x ∈ f.calls →
        x.gemm.b = f.arg_a.data ∧ x.stride_b = int_mul f.m f.k ∧
        x.gemm.a = f.arg_b.data ∧ x.stride_a = int_mul f.k f.n ∧
        x.stride_c = int_mul f.m f.n ∧ x.stride_d = int_mul f.m f.n ∧
        (-2 ^ 31 ≤ f.m * f.k ∧ f.m * f.k < 2 ^ 31 → x.stride_b = f.m * f.k) ∧
        (-2 ^ 31 ≤ f.k * f.n ∧ f.k * f.n < 2 ^ 31 → x.stride_a = f.k * f.n) ∧
        (-2 ^ 31 ≤ f.m * f.n ∧ f.m * f.n < 2 ^ 31 →
          x.stride_c = f.m * f.n ∧ x.stride_d = f.m * f.n)) ∧
    ∃ x mem',
      self.compute ctx (shape.standard_of .int32_type [bs, m, n])
        [batched_argument .int8_type bs m k abuf, batched_argument .int8_type bs k n bbuf,
          { get_shape := scratch, data := sbuf }, batched_argument .int32_type bs m n obuf] =
        .ok (batched_argument .int32_type bs m n obuf,
          [device_call.pack_a ctx.get_stream.get { get_shape := scratch, data := sbuf }
              (batched_argument .int8_type bs k n bbuf),
            device_call.generic_rocblas_batched_gemm_ex x]) ∧
      x.stride_b = ((m * k : Nat) : Int) ∧ x.stride_a = ((k * n : Nat) : Int) ∧
      x.stride_c = ((m * n : Nat) : Int) ∧ x.stride_d = ((m * n : Nat) : Int) ∧
      x.batch_count = (bs : Int) ∧
      run [device_call.pack_a ctx.get_stream.get { get_shape := scratch, data := sbuf }
            (batched_argument .int8_type bs k n bbuf),
          device_call.generic_rocblas_batched_gemm_ex x] mem = some mem' ∧
      ∀ b i j, b < bs → i < m → j < n →
        (batched_argument .int32_type bs m n obuf).element mem' [b, i, j] =
          wrap_signed 32 (batch_product_entry mem (batched_argument .int8_type bs m k abuf)
            (batched_argument .int8_type bs k n bbuf) k b i j) ∧
        (-2 ^ 31 ≤ batch_product_entry mem (batched_argument .int8_type bs m k abuf)
              (batched_argument .int8_type bs k n bbuf) k b i j ∧
            batch_product_entry mem (batched_argument .int8_type bs m k abuf)
              (batched_argument .int8_type bs k n bbuf) k b i j < 2 ^ 31 →
          (batched_argument .int32_type bs m n obuf).element mem' [b, i, j] =
            batch_product_entry mem (batched_argument .int8_type bs m k abuf)
              (batched_argument .int8_type bs k n bbuf) k b i j) := by
  have hk0 : ¬ k < 1 := by omega
  have hn0 : ¬ n < 1 := by omega
  have hn31 : n < 2 ^ 31 := lt_of_le_of_lt (Nat.le_mul_of_pos_left n (by omega)) hkn
  have hk31 : k < 2 ^ 31 := lt_of_le_of_lt (Nat.le_mul_of_pos_right k (by omega)) hkn
  have hm31 : m < 2 ^ 31 := lt_of_le_of_lt (Nat.le_mul_of_pos_right m (by omega)) hmk
  have hbs64 : bs % 2 ^ 64 = bs := by
    apply Nat.mod_eq_of_lt
    norm_num at hbs31 ⊢
    omega
  have hal : ¬ (obuf = sbuf ∨ obuf = abuf) := by simp [hos, hoa]
  have hvalid : gemm_valid
      { handle := ctx.get_stream.get_rocblas
        trans_a := .rocblas_operation_none
        trans_b := .rocblas_operation_none
        m := n, n := m, k := k, alpha := 1
        a := sbuf, a_type := .rocblas_datatype_i8_r, lda := n
        b := abuf, b_type := .rocblas_datatype_i8_r, ldb := k
        beta := 0
        c := sbuf, c_type := .rocblas_datatype_i32_r, ldc := n
        d := obuf, d_type := .rocblas_datatype_i32_r, ldd := n
        compute_type := .rocblas_datatype_i32_r } := by
    simp [gemm_valid]
  have hcov := dense_covers_iff
    { handle := ctx.get_stream.get_rocblas
      trans_a := .rocblas_operation_none
      trans_b := .rocblas_operation_none
      m := n, n := m, k := k, alpha := 1
      a := sbuf, a_type := .rocblas_datatype_i8_r, lda := n
      b := abuf, b_type := .rocblas_datatype_i8_r, ldb := k
      beta := 0
      c := sbuf, c_type := .rocblas_datatype_i32_r, ldc := n
      d := obuf, d_type := .rocblas_datatype_i32_r, ldd := n
      compute_type := .rocblas_datatype_i32_r } m n
  have hex : ∀ mem0 : memory, ∃ mem', rocblas_gemm_strided_batched_ex
      { gemm :=
          { handle := ctx.get_stream.get_rocblas
            trans_a := .rocblas_operation_none
            trans_b := .rocblas_operation_none
            m := n, n := m, k := k, alpha := 1
            a := sbuf, a_type := .rocblas_datatype_i8_r, lda := n
            b := abuf, b_type := .rocblas_datatype_i8_r, ldb := k
            beta := 0
            c := sbuf, c_type := .rocblas_datatype_i32_r, ldc := n
            d := obuf, d_type := .rocblas_datatype_i32_r, ldd := n
            compute_type := .rocblas_datatype_i32_r }
        stride_a := ((k * n : Nat) : Int)
        stride_b := ((m * k : Nat) : Int)
        stride_c := ((m * n : Nat) : Int)
        stride_d := ((m * n : Nat) : Int)
        batch_count := (bs : Int) } mem0 = some mem' := by
    intro mem0
    unfold rocblas_gemm_strided_batched_ex
    rw [if_neg hal]
    exact ⟨_, rfl⟩
  obtain ⟨mem', hmem'⟩ := hex (pack { get_shape := scratch, data := sbuf }
    (batched_argument .int8_type bs k n bbuf) mem)
  refine ⟨?_,
    { gemm :=
        { handle := ctx.get_stream.get_rocblas
          trans_a := .rocblas_operation_none
          trans_b := .rocblas_operation_none
          m := n, n := m, k := k, alpha := 1
          a := sbuf, a_type := .rocblas_datatype_i8_r, lda := n
          b := abuf, b_type := .rocblas_datatype_i8_r, ldb := k
          beta := 0
          c := sbuf, c_type := .rocblas_datatype_i32_r, ldc := n
          d := obuf, d_type := .rocblas_datatype_i32_r, ldd := n
          compute_type := .rocblas_datatype_i32_r }
      stride_a := ((k * n : Nat) : Int)
      stride_b := ((m * k : Nat) : Int)
      stride_c := ((m * n : Nat) : Int)
      stride_d := ((m * n : Nat) : Int)
      batch_count := (bs : Int) }, mem', ?_, rfl, rfl, rfl, rfl, rfl, ?_, ?_⟩
  · intro output_shape args f x hf hx
    obtain ⟨args2, _, _, _, hall⟩ := gemm_call_eq_kernel_call self ctx output_shape args f hf
    have hc := hall _ hx (by simp [device_call.is_gemm, device_call.gemm_args])
    unfold compute_frame.kernel_call at hc
    split at hc
    · simp at hc
    · simp only [device_call.generic_rocblas_batched_gemm_ex.injEq] at hc
      rw [hc]
      exact ⟨rfl, rfl, rfl, rfl, rfl, rfl, fun h => int_mul_of_range _ _ h.1 h.2,
        fun h => int_mul_of_range _ _ h.1 h.2,
        fun h => ⟨int_mul_of_range _ _ h.1 h.2, int_mul_of_range _ _ h.1 h.2⟩⟩
  · have ta : (batched_argument .int8_type bs m k abuf).get_shape.transposed = false := by
      simp [batched_argument, shape.standard_of, calculate_strides, shape.transposed, hk0]
    have tb : (batched_argument .int8_type bs k n bbuf).get_shape.transposed = false := by
      simp [batched_argument, shape.standard_of, calculate_strides, shape.transposed, hn0]
    obtain ⟨f, hf, e_ta, e_tb, e_lda, e_ldb, e_ldc, e_res, e_b, e_a, e_m, e_n, e_k, e_al, e_be,
      e_num⟩ := compute_of_lookups self ctx (shape.standard_of .int32_type [bs, m, n])
        [batched_argument .int8_type bs m k abuf, batched_argument .int8_type bs k n bbuf,
          { get_shape := scratch, data := sbuf }, batched_argument .int32_type bs m n obuf]
        (batched_argument .int32_type bs m n obuf) (batched_argument .int8_type bs m k abuf)
        (batched_argument .int8_type bs k n bbuf) { get_shape := scratch, data := sbuf }
        k n n m n k
        ({ get_shape := scratch, data := sbuf }, 1,
          [device_call.pack_a ctx.get_stream.get { get_shape := scratch, data := sbuf }
            (batched_argument .int8_type bs k n bbuf)])
        (batched_argument .int8_type bs m k abuf, 1, []) rfl rfl rfl rfl
        (by rw [ta]; simp [vector_index, batched_argument, shape.standard_of, calculate_strides,
          size_sub])
        (by rw [tb]; simp [vector_index, batched_argument, shape.standard_of, calculate_strides,
          size_sub])
        (by simp [vector_index, batched_argument, shape.standard_of, calculate_strides,
          size_sub])
        (by rw [tb]; rfl) (by rw [ta]; rfl)
        (by simp [vector_index, shape.standard_of, size_sub])
        (by simp [vector_index, shape.standard_of, size_sub])
        (by simp [vector_index, batched_argument, shape.standard_of, size_sub])
        (to_rocblas_int_tmod k hk4)
    rw [hf]
    have hnum : f.num_matrices = bs := by
      rw [e_num]
      simp only [shape.standard_of, List.reverse_cons, List.reverse_nil, List.nil_append,
        List.cons_append, List.drop_succ_cons, List.drop_zero, List.foldl_cons, List.foldl_nil,
        size_mul, Nat.one_mul]
      exact hbs64
    have hkc : f.kernel_call ctx { get_shape := scratch, data := sbuf } =
        device_call.generic_rocblas_batched_gemm_ex
          { gemm :=
              { handle := ctx.get_stream.get_rocblas
                trans_a := .rocblas_operation_none
                trans_b := .rocblas_operation_none
                m := n, n := m, k := k, alpha := 1
                a := sbuf, a_type := .rocblas_datatype_i8_r, lda := n
                b := abuf, b_type := .rocblas_datatype_i8_r, ldb := k
                beta := 0
                c := sbuf, c_type := .rocblas_datatype_i32_r, ldc := n
                d := obuf, d_type := .rocblas_datatype_i32_r, ldd := n
                compute_type := .rocblas_datatype_i32_r }
            stride_a := ((k * n : Nat) : Int)
            stride_b := ((m * k : Nat) : Int)
            stride_c := ((m * n : Nat) : Int)
            stride_d := ((m * n : Nat) : Int)
            batch_count := (bs : Int) } := by
      unfold compute_frame.kernel_call
      rw [hnum, if_neg hbs]
      unfold compute_frame.gemm
      rw [e_ta, e_tb, e_lda, e_ldb, e_ldc, e_res, e_b, e_a, e_m, e_n, e_k, e_al, e_be, ta, tb,
        halpha, to_rocblas_int_of_lt m hm31, to_rocblas_int_of_lt n hn31,
        to_rocblas_int_of_lt k hk31, to_rocblas_int_of_lt bs hbs31, int_mul_cast k n hkn,
        int_mul_cast m k hmk, int_mul_cast m n hmn]
      simp [batched_argument, shape.standard_of, size_sub, type_t.as,
        wrap_signed_32_one, wrap_signed_32_zero, to_rocblas_operation]
    rw [hkc]
    rfl
  · simp only [run, List.foldl_cons, List.foldl_nil, device_call.exec, Option.bind]
    exact hmem'
  · intro b i j hb hi hj
    apply batched_element_of_wrapped
    obtain ⟨mem'', hmem'', hval⟩ := batched_entry_of_covers
      { gemm :=
          { handle := ctx.get_stream.get_rocblas
            trans_a := .rocblas_operation_none
            trans_b := .rocblas_operation_none
            m := n, n := m, k := k, alpha := 1
            a := sbuf, a_type := .rocblas_datatype_i8_r, lda := n
            b := abuf, b_type := .rocblas_datatype_i8_r, ldb := k
            beta := 0
            c := sbuf, c_type := .rocblas_datatype_i32_r, ldc := n
            d := obuf, d_type := .rocblas_datatype_i32_r, ldd := n
            compute_type := .rocblas_datatype_i32_r }
        stride_a := ((k * n : Nat) : Int)
        stride_b := ((m * k : Nat) : Int)
        stride_c := ((m * n : Nat) : Int)
        stride_d := ((m * n : Nat) : Int)
        batch_count := (bs : Int) }
      (pack { get_shape := scratch, data := sbuf } (batched_argument .int8_type bs k n bbuf) mem)
      obuf (b * (m * n) + (i * n + j)) b hal (by simpa using hb)
      (by
        rw [toNat_cast_mul]
        exact (hcov b b i j obuf rfl rfl rfl rfl hvalid hi hj).mpr rfl)
      (by
        intro c _ hne hc
        rw [toNat_cast_mul] at hc
        exact hne ((hcov b c i j obuf rfl rfl rfl rfl hvalid hi hj).mp hc))
    rw [hmem'] at hmem''
    rw [Option.some.inj hmem'', hval]
    simp only [toNat_cast_mul]
    have hsub : b * (m * n) + (i * n + j) - b * (m * n) = i * n + j := by omega
    obtain ⟨hmod, hdiv⟩ := index_div_mod i j n hj
    simp only [hsub, Int.toNat_ofNat, hmod, hdiv]
    simp [gemm_entry, op_entry, pack, batch_product_entry, argument.element, batched_index,
      batched_argument, Ne.symm hs, rocblas_datatype.convert, type_t.as]
    have hA : ∀ l, (shape.standard_of .int8_type [bs, m, k]).index [b, i, l] =
        b * (m * k) + (i * k + l) := fun l => batched_index .int8_type bs m k abuf b i l
    have hB : ∀ l, (shape.standard_of .int8_type [bs, k, n]).index [b, l, j] =
        b * (k * n) + (l * n + j) := fun l => batched_index .int8_type bs k n bbuf b l j
    congr 3
    apply List.map_congr_left
    intro l _
    rw [hA, hB, Int.mul_comm, Nat.add_comm l (i * k), Nat.add_comm j (l * n)]
    rfl

/-- C12 (amended) on a batch of 4 multiplications of 2 by 8 by 8 by 3: the
strides are 16 for A, 24 for B and 6 for the accumulator input and the output,
the batch count is 4, and entry (1, 2) of matrix 3 of the output is the
product entry. -/
theorem batched_strides_witness :
    (4 ≠ 1 ∧ 1 ≤ 3 ∧ 1 ≤ 8 ∧ 8 % 4 = 0 ∧ standard_quant_gemm.op.alpha = 1 ∧ 4 < 2 ^ 31 ∧
      2 * 8 < 2 ^ 31 ∧ 8 * 3 < 2 ^ 31 ∧ 2 * 3 < 2 ^ 31 ∧ 2 ≠ 0 ∧ 3 ≠ 2 ∧ 3 ≠ 0) ∧
    ∃ x mem',
      standard_quant_gemm.compute sample_ctx (shape.standard_of .int32_type [4, 2, 3])
        [batched_argument .int8_type 4 2 8 0, batched_argument .int8_type 4 8 3 1,
          { get_shape := sample_b, data := 2 }, batched_argument .int32_type 4 2 3 3] =
        .ok (batched_argument .int32_type 4 2 3 3,
          [device_call.pack_a sample_ctx.get_stream.get { get_shape := sample_b, data := 2 }
              (batched_argument .int8_type 4 8 3 1),
            device_call.generic_rocblas_batched_gemm_ex x]) ∧
      x.stride_b = 16 ∧ x.stride_a = 24 ∧ x.stride_c = 6 ∧ x.stride_d = 6 ∧
      x.batch_count = 4 ∧
      run [device_call.pack_a sample_ctx.get_stream.get { get_shape := sample_b, data := 2 }
            (batched_argument .int8_type 4 8 3 1),
          device_call.generic_rocblas_batched_gemm_ex x] sample_mem = some mem' ∧
      (batched_argument .int32_type 4 2 3 3).element mem' [3, 1, 2] =
        wrap_signed 32 (batch_product_entry sample_mem (batched_argument .int8_type 4 2 8 0)
          (batched_argument .int8_type 4 8 3 1) 8 3 1 2) := by
  obtain ⟨_, x, mem', hc, h1, h2, h3, h4, h5, hr, hv⟩ := batched_strides standard_quant_gemm
    sample_ctx 4 2 3 8 0 1 2 3 sample_b sample_mem (by decide) (by decide) (by decide)
    (by decide) rfl (by norm_num) (by norm_num) (by norm_num) (by norm_num) (by decide)
    (by decide) (by decide)
  exact ⟨⟨by decide, by decide, by decide, by decide, rfl, by norm_num, by norm_num,
    by norm_num, by norm_num, by decide, by decide, by decide⟩, x, mem', hc,
    h1, h2, h3, h4, h5, hr, (hv 3 1 2 (by decide) (by decide) (by decide)).1⟩

/-- C14 at its failing input: with a configured beta of 200 and a bias argument
(`[A, B transposed, C, output]`, 32-bit output), the beta handed to the kernel
is -56, the value 200 takes in the `int8_t` local of line 108, whereas 200
converted to the output type is 200; alpha is converted directly. -/
theorem beta_narrowed_through_int8 :
    (wide_beta_quant_gemm.compute_frame sample_ctx sample_out
        (sample_args [sample_a, sample_b_transposed, sample_out, sample_out])).map
        (fun f => (f.is_3inputs, f.beta_r, f.alpha_r)) =
      .ok (true, -56, sample_out.type.as wide_beta_quant_gemm.op.alpha) ∧
    sample_out.type.as wide_beta_quant_gemm.op.beta = 200 := by
  constructor
  · rfl
  · rfl

/-- C15: once the trailing shapes are removed, `compute_shape` raises the
error of the broadcast check whenever one of the remaining shapes is
broadcasted, whatever the shape rule of the operator, which is not consulted;
when none is broadcasted its result is the result of the rule on the remaining
shapes, so it fails exactly when the rule fails on them. -/
theorem compute_shape_broadcast_check (self : miopen_quant_gemm) (a b : shape)
    (rest : List shape) (hlen : removed_shapes a b ≤ (a :: b :: rest).length) :
    ((∃ s ∈ (a :: b :: rest).take ((a :: b :: rest).length - removed_shapes a b),
        s.broadcasted = true) →
      self.compute_shape (a :: b :: rest) = .error .check_shapes) ∧
    ((∀ s ∈ (a :: b :: rest).take ((a :: b :: rest).length - removed_shapes a b),
        s.broadcasted = false) →
      self.compute_shape (a :: b :: rest) =
          self.op.compute_shape
            ((a :: b :: rest).take ((a :: b :: rest).length - removed_shapes a b)) ∧
        ((∃ e, self.compute_shape (a :: b :: rest) = .error e) ↔
          ∃ e, self.op.compute_shape
            ((a :: b :: rest).take ((a :: b :: rest).length - removed_shapes a b)) =
              .error e)) := by
  constructor
  · rintro ⟨s, hs, hbs⟩
    unfold miopen_quant_gemm.compute_shape
    rw [input_shapes_ok a b rest hlen]
    have hany : List.any ((a :: b :: rest).take ((a :: b :: rest).length - removed_shapes a b))
        shape.broadcasted = true := by
      rw [List.any_eq_true]
      exact ⟨s, hs, hbs⟩
    simp only [bind, Except.bind, check_shapes_not_broadcasted, hany]
    rfl
  · intro hnb
    have h := compute_shape_on_remaining self a b rest hlen hnb
    exact ⟨h, by rw [h]⟩

/-- C15 on `[A, B, scratch, output]`: with the last axis of A broadcasted the
check fails; with the standard A the result is that of the rule on `[A, B]`. -/
theorem compute_shape_broadcast_check_witness :
    (removed_shapes sample_a_broadcasted sample_b ≤
        [sample_a_broadcasted, sample_b, sample_b, sample_out].length ∧
      standard_quant_gemm.compute_shape [sample_a_broadcasted, sample_b, sample_b, sample_out] =
        .error .check_shapes) ∧
    (removed_shapes sample_a sample_b ≤ [sample_a, sample_b, sample_b, sample_out].length ∧
      standard_quant_gemm.compute_shape [sample_a, sample_b, sample_b, sample_out] =
        standard_quant_gemm.op.compute_shape
          ([sample_a, sample_b, sample_b, sample_out].take
            ([sample_a, sample_b, sample_b, sample_out].length -
              removed_shapes sample_a sample_b))) :=
  ⟨⟨by decide,
      (compute_shape_broadcast_check standard_quant_gemm sample_a_broadcasted sample_b
        [sample_b, sample_out] (by decide)).1 ⟨sample_a_broadcasted, by decide, by decide⟩⟩,
    ⟨by decide,
      ((compute_shape_broadcast_check standard_quant_gemm sample_a sample_b
        [sample_b, sample_out] (by decide)).2 (by decide)).1⟩⟩

end gpu
end migraphx

/-! ## The compile check -/

namespace migraphx

/-- C16: when `p.compile(t, ...)` completes, `compile_check` throws iff the
shape of the compiled program differs from the shape before, the exception
carrying the text that compiling with the target alters the shape; it returns
normally iff the shape is unchanged; and in both cases the program it leaves is
the program compiled for `t`. -/
theorem compile_check_throws_iff {P E : Type} (ops : program_ops P E) (p : P) (t : target)
    (compiled : P) (hc : ops.compile p t = .ok compiled) :
    ((∃ what q, compile_check ops p t = .runtime_error what q) ↔
        ops.get_shape compiled ≠ ops.get_shape p) ∧
      (ops.get_shape compiled ≠ ops.get_shape p →
        compile_check ops p t = .runtime_error (alters_shape_message t.name) compiled) ∧
      (compile_check ops p t = .returned compiled ↔
        ops.get_shape compiled = ops.get_shape p) ∧
      (∀ q, compile_check ops p t = .returned q → q = compiled) ∧
      (∀ what q, compile_check ops p t = .runtime_error what q → q = compiled) ∧
      ∀ e, compile_check ops p t ≠ .compile_raised e := by
  unfold compile_check
  simp only [hc]
  by_cases hs : ops.get_shape compiled = ops.get_shape p
  · simp [hs]
  · simp [hs]

/-- C16 on the sample program: compiling for `cpu` alters the shape and the
check throws, compiling for `gpu` keeps it and the check returns. -/
theorem compile_check_throws_iff_witness :
    (compile_check sample_program_ops { shape := sample_out, compiled_for := none }
        { name := "cpu" } =
      .runtime_error (alters_shape_message "cpu")
        { shape := { type := .int8_type, lens := [2, 8], strides := [8, 1] },
          compiled_for := some "cpu" }) ∧
    (compile_check sample_program_ops { shape := sample_out, compiled_for := none }
        { name := "gpu" } =
      .returned { shape := sample_out, compiled_for := some "gpu" }) :=
  ⟨(compile_check_throws_iff sample_program_ops { shape := sample_out, compiled_for := none }
      { name := "cpu" } _ rfl).2.1 (by decide),
    (compile_check_throws_iff sample_program_ops { shape := sample_out, compiled_for := none }
      { name := "gpu" } _ rfl).2.2.1.mpr rfl⟩

end migraphx

/-! ## Leading dimensions, forced paths, data types and packing order -/

namespace migraphx
namespace gpu

theorem run_append_singleton (calls : List device_call) (c : device_call) (mem : memory) :
    run (calls ++ [c]) mem = (run calls mem).bind c.exec := by
  simp [run, List.foldl_append]

theorem to_rocblas_int_one : to_rocblas_int 1 = 1 := by
  norm_num [to_rocblas_int, wrap_signed]

/-- C18: when `compute` returns with a batch size of 1, its kernel call is the
single-matrix one, the strided-batched call built from the same local
variables carries the same GEMM arguments (operands, transpose flags, n, m, k,
alpha, beta, leading dimensions, data-type tags), and the invocation forced
through the strided-batched call leaves, under the reference model, the same
memory as the invocation as it is. -/
theorem batch_one_paths_agree (self : miopen_quant_gemm) (ctx : context)
    (output_shape : shape) (args : List argument) (f : compute_frame)
    (hf : self.compute_frame ctx output_shape args = .ok f) (h1 : f.num_matrices = 1) :
    ∃ args2 g,
      args[2]? = some args2 ∧
      (f.single_call ctx args2).gemm_args = some g ∧
      (f.batched_call ctx args2).gemm_args = some g ∧
      f.calls = f.forced_calls (f.single_call ctx args2) ∧
      ∀ mem, run (f.forced_calls (f.batched_call ctx args2)) mem =
        run (f.forced_calls (f.single_call ctx args2)) mem := by
  obtain ⟨args2, h2, _, hlast, _⟩ := gemm_call_eq_kernel_call self ctx output_shape args f hf
  have hkc : f.kernel_call ctx args2 = f.single_call ctx args2 := by
    unfold compute_frame.kernel_call compute_frame.single_call
    rw [if_pos h1]
  have hcalls : f.calls = f.calls.dropLast ++ [f.single_call ctx args2] := by
    rw [hkc] at hlast
    have hne : f.calls ≠ [] := by
      intro hnil
      rw [hnil] at hlast
      simp at hlast
    have := List.dropLast_append_getLast hne
    rw [List.getLast?_eq_getLast _ hne] at hlast
    simp only [Option.some.injEq] at hlast
    rw [hlast] at this
    exact this.symm
  refine ⟨args2, f.gemm ctx args2, h2, rfl, rfl, hcalls, ?_⟩
  intro mem
  unfold compute_frame.forced_calls
  rw [run_append_singleton, run_append_singleton]
  have he : (f.batched_call ctx args2).exec = (f.single_call ctx args2).exec := by
    funext mem1
    show rocblas_gemm_strided_batched_ex _ _ = rocblas_gemm_ex _ _
    exact batched_one_eq_gemm _ _
      (by
        show to_rocblas_int f.num_matrices = 1
        rw [h1]
        exact to_rocblas_int_one)
  rw [he]

/-- C18 on the arguments `[A, B, scratch, output]` of the 2 by 8 times 8 by 3
product, whose batch size is 1. -/
theorem batch_one_paths_agree_witness :
    ∃ f,
      standard_quant_gemm.compute_frame sample_ctx sample_out
        (sample_args [sample_a, sample_b, sample_b, sample_out]) = .ok f ∧
      f.num_matrices = 1 ∧
      ∃ args2 g,
        (sample_args [sample_a, sample_b, sample_b, sample_out])[2]? = some args2 ∧
        (f.single_call sample_ctx args2).gemm_args = some g ∧
        (f.batched_call sample_ctx args2).gemm_args = some g ∧
        f.calls = f.forced_calls (f.single_call sample_ctx args2) ∧
        ∀ mem, run (f.forced_calls (f.batched_call sample_ctx args2)) mem =
          run (f.forced_calls (f.single_call sample_ctx args2)) mem := by
  obtain ⟨f, hf⟩ := compute_frame_total standard_quant_gemm sample_ctx sample_out
    (sample_args [sample_a, sample_b, sample_b, sample_out]) (by decide)
  have hnum : f.num_matrices = 1 := by
    obtain ⟨_, _, _, _, _, _, _, _, _, _, _, _, _, _, _, _, _, _, _, _, _, _, _, _, _, _, _, _,
      hnum⟩ := compute_frame_inv standard_quant_gemm sample_ctx sample_out _ f hf
    rw [hnum]
    decide
  exact ⟨f, hf, hnum, batch_one_paths_agree standard_quant_gemm sample_ctx sample_out
    (sample_args [sample_a, sample_b, sample_b, sample_out]) f hf hnum⟩

theorem dot_compute_shape_type (inputs : List shape) (s : shape)
    (h : dot_compute_shape inputs = .ok s) : s.type = .int32_type := by
  unfold dot_compute_shape at h
  split at h
  · split at h
    · split at h
      · simp at h
      · split at h
        · simp only [Except.ok.injEq] at h
          rw [← h]
          rfl
        · simp at h
    · simp at h
  · simp at h

theorem compute_shape_resolved_type (self : miopen_quant_gemm) (inputs : List shape)
    (s : shape) (hrule : self.op.compute_shape = dot_compute_shape)
    (h : self.compute_shape inputs = .ok s) : s.type = .int32_type := by
  unfold miopen_quant_gemm.compute_shape at h
  simp only [except_bind_eq_ok] at h
  obtain ⟨v, _, _, _, hv⟩ := h
  rw [hrule] at hv
  exact dot_compute_shape_type v s hv

/-- C19: in the kernel call of `compute`, single or strided-batched, the
data-type tags of the two matrix operands are the 8-bit integer and the tag of
the accumulation type is the 32-bit integer; the tags of the accumulator input
and of the output are the 32-bit integer, which is the element type of the
output shape when that shape is resolved by `compute_shape` with the standard
rule. -/
theorem kernel_datatypes (self : miopen_quant_gemm) (ctx : context) (output_shape : shape)
    (args : List argument) (inputs : List shape) (f : compute_frame)
    (hrule : self.op.compute_shape = dot_compute_shape)
    (hres : self.compute_shape inputs = .ok output_shape)
    (hf : self.compute_frame ctx output_shape args = .ok f) :
    (∃ c ∈ f.calls, c.is_gemm = true) ∧
      ∀ c ∈ f.calls, ∀ g, c.gemm_args = some g →
        g.a_type = .rocblas_datatype_i8_r ∧ g.b_type = .rocblas_datatype_i8_r ∧
        g.compute_type = .rocblas_datatype_i32_r ∧
        g.c_type = to_rocblas_datatype output_shape.type ∧
        g.d_type = to_rocblas_datatype output_shape.type := by
  have ht := compute_shape_resolved_type self inputs output_shape hrule hres
  obtain ⟨args2, _, hmem, _, hall⟩ := gemm_call_eq_kernel_call self ctx output_shape args f hf
  have hk := kernel_call_gemm_args ctx args2 f
  refine ⟨⟨_, hmem, by simp [device_call.is_gemm, hk]⟩, ?_⟩
  intro c hc g hg
  have hck := hall c hc (by simp [device_call.is_gemm, hg])
  rw [hck, hk] at hg
  simp only [Option.some.injEq] at hg
  rw [← hg, ht]
  exact ⟨rfl, rfl, rfl, rfl, rfl⟩

/-- C19 on the 2 by 8 times 8 by 3 product with its resolved output shape. -/
theorem kernel_datatypes_witness :
    standard_quant_gemm.compute_shape [sample_a, sample_b, sample_b, sample_out] =
        .ok sample_out ∧
    ∃ f,
      standard_quant_gemm.compute_frame sample_ctx sample_out
        (sample_args [sample_a, sample_b, sample_b, sample_out]) = .ok f ∧
      ∀ c ∈ f.calls, ∀ g, c.gemm_args = some g →
        g.a_type = .rocblas_datatype_i8_r ∧ g.b_type = .rocblas_datatype_i8_r ∧
        g.compute_type = .rocblas_datatype_i32_r ∧
        g.c_type = to_rocblas_datatype sample_out.type ∧
        g.d_type = to_rocblas_datatype sample_out.type := by
  obtain ⟨f, hf⟩ := compute_frame_total standard_quant_gemm sample_ctx sample_out
    (sample_args [sample_a, sample_b, sample_b, sample_out]) (by decide)
  exact ⟨rfl, f, hf, (kernel_datatypes standard_quant_gemm sample_ctx sample_out
    (sample_args [sample_a, sample_b, sample_b, sample_out])
    [sample_a, sample_b, sample_b, sample_out] f rfl rfl hf).2⟩

/-- C20: with A transposed and B not transposed (both repacks required) there
is an input on which the variant that handles A before B differs from
`compute`. On five arguments (argument `i` in buffer `i`) `compute` repacks B
into buffer 3 and A into buffer 2 and hands these to the kernel, the variant
repacks both into buffer 3 and hands buffer 3 over for both operands; on the
sample memory the first output entry is -12 after `compute` and 32 after the
variant. -/
theorem reordered_packing_differs :
    small_a_transposed.transposed = true ∧ small_b.transposed = false ∧
    (standard_quant_gemm.compute_frame sample_ctx small_out
        (sample_args [small_a_transposed, small_b, small_a_transposed, small_b, small_out])).map
        (fun f => (f.arg_b.data, f.arg_a.data)) = .ok (3, 2) ∧
    (standard_quant_gemm.compute_frame_reordered sample_ctx small_out
        (sample_args [small_a_transposed, small_b, small_a_transposed, small_b, small_out])).map
        (fun f => (f.arg_b.data, f.arg_a.data)) = .ok (3, 3) ∧
    (standard_quant_gemm.compute sample_ctx small_out
        (sample_args [small_a_transposed, small_b, small_a_transposed, small_b, small_out])).map
        (fun r => (run r.2 sample_mem).map (fun mem' => mem' r.1.data 0)) = .ok (some (-12)) ∧
    (standard_quant_gemm.compute_reordered sample_ctx small_out
        (sample_args [small_a_transposed, small_b, small_a_transposed, small_b, small_out])).map
        (fun r => (run r.2 sample_mem).map (fun mem' => mem' r.1.data 0)) = .ok (some 32) :=
  ⟨by decide, by decide, rfl, rfl, rfl, rfl⟩

end gpu
end migraphx

/-! ## Lookups in range, and the accumulator operand -/

namespace migraphx
namespace gpu

theorem compute_pre_of_ranks (output_shape : shape) (args : List argument)
    (a b res : argument) (r k : Nat)
    (ha : args[0]? = some a) (hb : args[1]? = some b) (hres : args.getLast? = some res)
    (hlen : 3 ≤ args.length) (hr : 2 ≤ r)
    (hra : a.get_shape.has_rank r) (hrb : b.get_shape.has_rank r)
    (hrr : res.get_shape.has_rank r) (hro : output_shape.has_rank r)
    (hk : a.get_shape.lens.getLast? = some k) (hk4 : k % 4 = 0) :
    compute_pre output_shape args = true := by
  match args, ha, hb, hres, hlen with
  | x :: y :: rest, ha, hb, hres, hlen =>
    simp only [List.getElem?_cons_zero, List.getElem?_cons_succ, Option.some.injEq] at ha hb
    subst ha
    subst hb
    have hne : rest ≠ [] := by
      intro hnil
      rw [hnil] at hlen
      simp at hlen
    have hlast : rest.getLast? = some res := by
      cases rest with
      | nil => exact absurd rfl hne
      | cons c cs => simpa [List.getLast?_cons_cons] using hres
    have hkk : x.get_shape.lens[r - 1]? = some k := by
      rw [List.getLast?_eq_getElem?] at hk
      rw [← hra.1]
      exact hk
    have hl1 : 1 ≤ rest.length := by
      simp only [List.length_cons] at hlen
      omega
    simp [compute_pre, hlast, hkk, hk4, hl1, hro.1, hra.2, hrb.2, hrr.2, hr]

/-- C21: for every argument list of length at least
3 + [B not transposed] + [A transposed] whose A, B and output shapes (the last
argument and the output shape) all have the same rank r >= 2 and whose A has a
last length that is a multiple of 4, `compute` gets through all its lookups and
its assertion: it returns, `k` is that last length converted to `rocblas_int`
(the length itself when it is below 2^31) and `k % 4 == 0` holds; the
slot index of line 92 (when B is repacked) and of line 102 (when A is
repacked) is computed without wrap-around, lies strictly between index 1 and
the last index, and holds the buffer used for the operand; and the two indices
differ when both are used. -/
theorem lookups_in_range (self : miopen_quant_gemm) (ctx : context) (output_shape : shape)
    (args : List argument) (a b res : argument) (r k : Nat)
    (ha : args[0]? = some a) (hb : args[1]? = some b) (hres : args.getLast? = some res)
    (hlen : 3 + (if b.get_shape.transposed then 0 else 1) +
      (if a.get_shape.transposed then 1 else 0) ≤ args.length)
    (hr : 2 ≤ r)
    (hra : a.get_shape.has_rank r) (hrb : b.get_shape.has_rank r)
    (hrr : res.get_shape.has_rank r) (hro : output_shape.has_rank r)
    (hk : a.get_shape.lens.getLast? = some k) (hk4 : k % 4 = 0) :
    ∃ f, self.compute_frame ctx output_shape args = .ok f ∧
      f.k = to_rocblas_int k ∧ (k < 2 ^ 31 → f.k = k) ∧ f.k.tmod 4 = 0 ∧ f.k % 4 = 0 ∧
      (b.get_shape.transposed = false →
        size_sub args.length 2 = args.length - 2 ∧
        1 < args.length - 2 ∧ args.length - 2 < args.length - 1 ∧
        args[args.length - 2]? = some f.arg_b) ∧
      (a.get_shape.transposed = true →
        size_sub (size_sub args.length 2) (if b.get_shape.transposed then 0 else 1) =
          args.length - 2 - (if b.get_shape.transposed then 0 else 1) ∧
        1 < args.length - 2 - (if b.get_shape.transposed then 0 else 1) ∧
        args.length - 2 - (if b.get_shape.transposed then 0 else 1) < args.length - 1 ∧
        args[args.length - 2 - (if b.get_shape.transposed then 0 else 1)]? = some f.arg_a) ∧
      (b.get_shape.transposed = false → a.get_shape.transposed = true →
        args.length - 2 ≠ args.length - 2 - 1) := by
  have hlen3 : 3 ≤ args.length := by omega
  have hpre := compute_pre_of_ranks output_shape args a b res r k ha hb hres hlen3 hr hra hrb
    hrr hro hk hk4
  obtain ⟨f, hf⟩ := compute_frame_total self ctx output_shape args hpre
  obtain ⟨a0, _, _, _, _, _, h0i, _, _, _, _, _, _, _, _, _, _, _, _, _, _, _, hkl, hk4', _⟩ :=
    compute_frame_inv self ctx output_shape args f hf
  obtain ⟨args0, args1, _, h0, h1, _, _, hta, htb, _, _, hbf, _, hat, _⟩ :=
    compute_frame_packs self ctx output_shape args f hf
  have h0i' := vector_index_eq_ok _ _ _ h0i
  rw [ha] at h0 h0i'
  rw [hb] at h1
  simp only [Option.some.injEq] at h0 h1 h0i'
  subst h0
  subst h1
  subst h0i'
  rw [hta] at hat
  rw [htb] at hbf hat
  have hfk : f.k = to_rocblas_int k := by
    obtain ⟨k', hkl, hfk⟩ := except_map_eq_ok _ _ _ hkl
    rw [size_sub_le _ _ (by rw [hro.1]; omega), hro.1, ← hra.1] at hkl
    have hkl' := vector_index_eq_ok _ _ _ hkl
    rw [List.getLast?_eq_getElem?, hkl'] at hk
    simp only [Option.some.injEq] at hk
    rw [hfk, hk]
  refine ⟨f, hf, hfk, fun h => hfk.trans (to_rocblas_int_of_lt k h), hk4',
    Int.emod_eq_zero_of_dvd (Int.dvd_of_tmod_eq_zero hk4'), ?_, ?_, ?_⟩
  · intro hbt
    rw [hbt] at hlen
    simp only [Bool.false_eq_true, if_false] at hlen
    exact ⟨size_sub_le _ _ (by omega), by omega, by omega, hbf hbt⟩
  · intro hat'
    rw [hat'] at hlen
    simp only [if_true] at hlen
    have hp : (if b.get_shape.transposed = true then 0 else 1) ≤ args.length - 2 := by
      split <;> omega
    refine ⟨by rw [size_sub_le args.length 2 (by omega), size_sub_le _ _ hp], ?_, ?_,
      (hat hat').2⟩
    · split at hlen <;> simp_all <;> omega
    · split <;> omega
  · intro hbt hat'
    rw [hbt, hat'] at hlen
    simp only [Bool.false_eq_true, if_false, if_true] at hlen
    omega

/-- C21 on five arguments with A transposed and B not transposed: B is
repacked into index 3 and A into index 2. -/
theorem lookups_in_range_witness :
    ∃ f,
      standard_quant_gemm.compute_frame sample_ctx sample_out
        (sample_args [sample_a_transposed, sample_b, sample_a, sample_b, sample_out]) = .ok f ∧
      f.k = 8 ∧ f.k.tmod 4 = 0 ∧ f.k % 4 = 0 ∧
      (sample_b.transposed = false →
        size_sub 5 2 = 5 - 2 ∧ 1 < 5 - 2 ∧ 5 - 2 < 5 - 1 ∧
        (sample_args [sample_a_transposed, sample_b, sample_a, sample_b, sample_out])[5 - 2]? =
          some f.arg_b) := by
  obtain ⟨f, hf, _, h1, h2, h2', h3, _⟩ := lookups_in_range standard_quant_gemm sample_ctx
    sample_out (sample_args [sample_a_transposed, sample_b, sample_a, sample_b, sample_out])
    { get_shape := sample_a_transposed, data := 0 } { get_shape := sample_b, data := 1 }
    { get_shape := sample_out, data := 4 } 2 8 rfl rfl rfl (by decide) (by decide) (by decide)
    (by decide) (by decide) (by decide) rfl (by decide)
  exact ⟨f, hf, h1 (by norm_num), h2, h2', h3⟩


end gpu
end migraphx
